import Mathlib

/-!
# EasyPowerLines: spline helpers and catenary sampling

A shallow embedding of `Source/UtilityPoles/Private/SplineHelpers.cpp`.

Conventions of the embedding.

* `float` values are elements of a linearly ordered field `K` (exact arithmetic); the
  theorems about hyperbolic functions take `K = ℝ`.
* A floating-point operation that leaves the finite numbers in the source (a division by
  zero, the square root of a negative number, the logarithm of a non-positive number) has no
  exact counterpart; the functions that perform one return `Option` and yield `none` there.
* `int32` values are `Int`/`Nat`; conversions that would leave the `int32` range are
  undefined behaviour in the source and are not modelled.
* Engine objects (`USplineComponent`, `UStaticMesh`) are records of the queries the code
  performs on them; a nullable pointer is an `Option`.
-/

namespace EasyPowerLines

/-! ## Engine data types -/

/-- The engine's 3D vector `FVector`. -/
structure FVector (K : Type) where
  X : K
  Y : K
  Z : K

/-- The engine's `FRotator`; its constructor takes pitch, yaw, roll in this order. -/
structure FRotator (K : Type) where
  Pitch : K
  Yaw : K
  Roll : K

/-- The engine's `FTransform`, seen through the accessors the code uses:
`Rotator()`, `GetLocation()` and the scale. -/
structure FTransform (K : Type) where
  Rotator : FRotator K
  GetLocation : FVector K
  Scale3D : FVector K

/-- The engine's `EAxis::Type`. -/
inductive EAxis where
  | None
  | X
  | Y
  | Z
  deriving DecidableEq, Repr

/-- The engine's axis-aligned box `FBox`. -/
structure FBox (K : Type) where
  Min : FVector K
  Max : FVector K

/-- A static mesh asset, seen through `GetBoundingBox()`. -/
structure UStaticMesh (K : Type) where
  GetBoundingBox : FBox K

/-- A spline component, seen through the queries the helpers perform on it
(all in `ESplineCoordinateSpace::Local`). -/
structure USplineComponent (K : Type) where
  GetSplineLength : K
  GetTransformAtDistanceAlongSpline : K → FTransform K
  GetLocationAtDistanceAlongSpline : K → FVector K
  GetTangentAtDistanceAlongSpline : K → FVector K
  GetDistanceAlongSplineAtSplinePoint : Int → K

/-- The scalar functions the code calls that are not field operations: `FMath::Sqrt`,
`FMath::Loge`, the helpers `Sinh` and `Cosh`, and the C library test `isinf`. The code is
embedded over an arbitrary such record. -/
structure FloatMath (K : Type) where
  Sqrt : K → K
  Loge : K → K
  Sinh : K → K
  Cosh : K → K
  isinf : K → Bool

section Generic

variable {K : Type} [LinearOrderedField K]

/-! ## Checked floating-point operations -/

/-- Division; `none` when the divisor is zero. -/
def fdiv (a b : K) : Option K :=
  if b = 0 then none else some (a / b)

/-- `FMath::Sqrt`; `none` on a negative argument. -/
def fsqrt (M : FloatMath K) (x : K) : Option K :=
  if x < 0 then none else some (M.Sqrt x)

/-- `FMath::Loge`; `none` on a non-positive argument. -/
def flog (M : FloatMath K) (x : K) : Option K :=
  if 0 < x then some (M.Loge x) else none

/-! ## Engine vector functions -/

/-- `FVector::Size`: the Euclidean length. -/
def FVector.Size (M : FloatMath K) (V : FVector K) : K :=
  M.Sqrt (V.X * V.X + V.Y * V.Y + V.Z * V.Z)

/-- `FVector::Dist`: the Euclidean distance of two points. -/
def FVector.Dist (M : FloatMath K) (V1 V2 : FVector K) : K :=
  M.Sqrt ((V2.X - V1.X) * (V2.X - V1.X) + (V2.Y - V1.Y) * (V2.Y - V1.Y)
    + (V2.Z - V1.Z) * (V2.Z - V1.Z))

/-- `FVector::PointsAreNear`: the engine compares the three coordinate differences with
`Dist`, one after the other. -/
def FVector.PointsAreNear (Point1 Point2 : FVector K) (Dist : K) : Bool :=
  if |Point1.X - Point2.X| ≥ Dist then false
  else if |Point1.Y - Point2.Y| ≥ Dist then false
  else if |Point1.Z - Point2.Z| ≥ Dist then false
  else true

/-- `FMath::Clamp`. -/
def Clamp (X MinValue MaxValue : K) : K :=
  max (min X MaxValue) MinValue

/-- `FMath::Lerp`. -/
def Lerp (A B Alpha : K) : K :=
  A + Alpha * (B - A)

/-- The engine constant `UE_SMALL_NUMBER` (`1.e-8f`). -/
def SMALL_NUMBER : K := 1 / 100000000

/-- `FVector::GetClampedToSize`: the direction of `V` (zero when `V` is shorter than
`UE_SMALL_NUMBER`), scaled by the length of `V` clamped to `[Min, Max]`. -/
def FVector.GetClampedToSize (M : FloatMath K) (V : FVector K) (Min Max : K) : FVector K :=
  let VecSize := V.Size M
  let VecDir : FVector K :=
    if VecSize > SMALL_NUMBER then
      let RScale := 1 / VecSize
      ⟨V.X * RScale, V.Y * RScale, V.Z * RScale⟩
    else ⟨0, 0, 0⟩
  let VecSize := Clamp VecSize Min Max
  ⟨VecDir.X * VecSize, VecDir.Y * VecSize, VecDir.Z * VecSize⟩

/-! ## `USplineHelpers` -/

/-- `USplineHelpers::GetTransformPointsAlongSpline` (SplineHelpers.cpp, lines 8-29). -/
def GetTransformPointsAlongSpline [FloorRing K] (spline : USplineComponent K)
    (distBetweenObjects : K) (bFacingUp : Bool) : Option (List (FTransform K)) := do
  let splineLength := spline.GetSplineLength
  let instancesToSpawn : Int := ⌈(← fdiv splineLength distBetweenObjects)⌉
  (List.range (instancesToSpawn + 1).toNat).mapM fun (i : Nat) => do
    let distanceAlongSpline := (← fdiv splineLength (instancesToSpawn : K)) * (i : K)
    let splinePointTransform := spline.GetTransformAtDistanceAlongSpline distanceAlongSpline
    let facingUpTransform : FTransform K :=
      ⟨⟨0, splinePointTransform.Rotator.Yaw, splinePointTransform.Rotator.Roll⟩,
        splinePointTransform.GetLocation,
        ⟨1, 1, 1⟩⟩
    pure (if bFacingUp then facingUpTransform else splinePointTransform)

/-- `USplineHelpers::GetMeshLenght` (lines 31-55). -/
def GetMeshLenght (Mesh : Option (UStaticMesh K)) (Axis : EAxis) : K :=
  match Mesh with
  | none => 0
  | some Mesh =>
    let MinBoundingBox := Mesh.GetBoundingBox.Min
    let MaxBoundingBox := Mesh.GetBoundingBox.Max
    match Axis with
    | EAxis.X => |MinBoundingBox.X| + |MaxBoundingBox.X|
    | EAxis.Y => |MinBoundingBox.Y| + |MaxBoundingBox.Y|
    | EAxis.Z => |MinBoundingBox.Z| + |MaxBoundingBox.Z|
    | EAxis.None => |MinBoundingBox.X| + |MaxBoundingBox.X|

/-- The four outputs of `GetSplineMeshStartAndEndByIteration`. -/
structure TileSpan (K : Type) where
  StartPosition : FVector K
  StartTangent : FVector K
  EndPosition : FVector K
  EndTangent : FVector K

/-- `USplineHelpers::GetSplineMeshStartAndEndByIteration` (lines 62-71). -/
def GetSplineMeshStartAndEndByIteration (M : FloatMath K) (Index : Int) (Bound : K)
    (Spline : USplineComponent K) (NewStartPosition : K) : TileSpan K :=
  let StartDistance := (Index : K) * Bound + NewStartPosition
  let EndDistance := ((Index + 1 : Int) : K) * Bound + NewStartPosition
  { StartPosition := Spline.GetLocationAtDistanceAlongSpline StartDistance
    StartTangent :=
      (Spline.GetTangentAtDistanceAlongSpline StartDistance).GetClampedToSize M 0 Bound
    EndPosition := Spline.GetLocationAtDistanceAlongSpline EndDistance
    EndTangent :=
      (Spline.GetTangentAtDistanceAlongSpline EndDistance).GetClampedToSize M 0 Bound }

/-- `FMath::TruncToInt`: rounding towards zero. -/
def TruncToInt [FloorRing K] (F : K) : Int :=
  if 0 ≤ F then ⌊F⌋ else ⌈F⌉

/-- `USplineHelpers::GetMeshesCountInSpline` (lines 57-60). -/
def GetMeshesCountInSpline [FloorRing K] (Spline : USplineComponent K)
    (Mesh : Option (UStaticMesh K)) (Axis : EAxis) : Option Int := do
  pure (TruncToInt (← fdiv Spline.GetSplineLength (GetMeshLenght Mesh Axis)))

/-- `USplineHelpers::GetDistanceBetweenSplinePoints` (lines 73-76). -/
def GetDistanceBetweenSplinePoints (Spline : USplineComponent K) (Point1 Point2 : Int) : K :=
  |Spline.GetDistanceAlongSplineAtSplinePoint Point1
    - Spline.GetDistanceAlongSplineAtSplinePoint Point2|

/-- `USplineHelpers::GetMeshCountBewteenSplinePoints` (lines 78-81). -/
def GetMeshCountBewteenSplinePoints [FloorRing K] (Spline : USplineComponent K)
    (Mesh : Option (UStaticMesh K)) (Axis : EAxis) (Point1 Point2 : Int) : Option Int := do
  pure (TruncToInt (← fdiv (GetDistanceBetweenSplinePoints Spline Point1 Point2)
    (GetMeshLenght Mesh Axis)))

/-! ## `UCatenaryHelpers`: the shape-parameter solvers -/

/-- The loop of `FindParameterNewton` (lines 181-191) with `n` iterations left, entered
with the current value `Z`. -/
def NewtonLoop (M : FloatMath K) (TargetRatio : K) : Nat → K → Option K
  | 0, Z => some Z
  | n + 1, Z => do
    let Ratio ← fdiv (M.Sinh Z) Z
    let Derivative ← fdiv (M.Cosh Z * Z - M.Sinh Z) (Z * Z)
    let Delta ← fdiv (Ratio - TargetRatio) Derivative
    let Z := Z - Delta
    if |Delta| < 0.01 then some Z else NewtonLoop M TargetRatio n Z

/-- `UCatenaryHelpers::FindParameterNewton` (lines 175-194): initial guess `1`,
`MAX_ITERATIONS = 8`, `TOLERANCE = 0.01`. -/
def FindParameterNewton (M : FloatMath K) (TargetRatio : K) : Option K :=
  NewtonLoop M TargetRatio 8 1

/-- How the inner loop of `FindParameterFixed` is left: by the `return` of the function,
or by running on to the next outer round with the current `Z`. -/
inductive Flow (K : Type) where
  | Return (TestZ : K)
  | Next (Z : K)

/-- The inner loop of `FindParameterFixed` (lines 204-219) with `j` iterations left. -/
def FixedInner (M : FloatMath K) (TargetRatio StepSize : K) : Nat → K → Option (Flow K)
  | 0, Z => some (Flow.Next Z)
  | j + 1, Z => do
    let TestZ := Z + StepSize
    let Ratio ← fdiv (M.Sinh TestZ) TestZ
    if M.isinf Ratio then some (Flow.Next Z)
    else if |Ratio - TargetRatio| < 0.05 then some (Flow.Return TestZ)
    else if Ratio > TargetRatio then some (Flow.Next Z)
    else FixedInner M TargetRatio StepSize j TestZ

/-- The outer loop of `FindParameterFixed` (lines 202-221) with `i` rounds left. -/
def FixedOuter (M : FloatMath K) (TargetRatio : K) : Nat → K → K → Option K
  | 0, Z, _ => some Z
  | i + 1, Z, StepSize => do
    match ← FixedInner M TargetRatio StepSize 5 Z with
    | Flow.Return TestZ => some TestZ
    | Flow.Next Z => FixedOuter M TargetRatio i Z (StepSize * 0.2)

/-- `UCatenaryHelpers::FindParameterFixed` (lines 196-223): initial `Z = 1`,
`MAX_STEPS = 8`, initial `StepSize = 10`. -/
def FindParameterFixed (M : FloatMath K) (TargetRatio : K) : Option K :=
  FixedOuter M TargetRatio 8 1 10

/-! ## `UCatenaryHelpers`: the curve samplers -/

/-- The part that `CreateCatenaryNewton` (lines 108-129) and `CreateCatenaryFixed`
(lines 150-172) share word for word: from the shape parameter `Z` to the points. -/
def CatenaryPoints (M : FloatMath K) (StartPoint EndPoint : FVector K)
    (HorizontalDistance WireLength HeightDiff Z : K) (Steps : Nat) :
    Option (List (FVector K)) := do
  let A ← fdiv HorizontalDistance (2 * Z)
  let P := (HorizontalDistance - A *
    (← flog M (← fdiv (WireLength + HeightDiff) (WireLength - HeightDiff)))) / 2
  let Q := (EndPoint.Z + StartPoint.Z -
    (← fdiv (WireLength * M.Cosh Z) (M.Sinh Z))) / 2
  (List.range Steps).mapM fun (i : Nat) => do
    let T ← fdiv (i : K) (((Steps : Int) - 1 : Int) : K)
    let Pos : FVector K :=
      { X := Lerp StartPoint.X EndPoint.X T
        Y := Lerp StartPoint.Y EndPoint.Y T
        Z := A * M.Cosh (← fdiv (T * HorizontalDistance - P) A) + Q }
    pure Pos

/-- `UCatenaryHelpers::CreateCatenaryNewton` (lines 83-130). `MIN_SLACK` is a constant of
the missing header and a parameter here; `FRandRange` is the random source of this call. -/
def CreateCatenaryNewton (M : FloatMath K) (MIN_SLACK : K) (FRandRange : K → K → K)
    (StartPoint EndPoint : FVector K) (Slack SlackVariation : K) (Steps : Nat) :
    Option (List (FVector K)) :=
  if FVector.PointsAreNear StartPoint EndPoint 20 then some []
  else do
    let TotalDistance := FVector.Dist M StartPoint EndPoint
    let HorizontalDistance := FVector.Dist M ⟨EndPoint.X, EndPoint.Y, StartPoint.Z⟩ StartPoint
    let ran := FRandRange 0 SlackVariation
    let WireLength := TotalDistance + max MIN_SLACK (Slack + ran)
    let HeightDiff := EndPoint.Z - StartPoint.Z
    let TargetRatio ← fdiv (← fsqrt M (WireLength ^ 2 - HeightDiff ^ 2)) HorizontalDistance
    let Z ← FindParameterNewton M TargetRatio
    CatenaryPoints M StartPoint EndPoint HorizontalDistance WireLength HeightDiff Z Steps

/-- `UCatenaryHelpers::CreateCatenaryFixed` (lines 132-173). -/
def CreateCatenaryFixed (M : FloatMath K) (MIN_SLACK : K)
    (StartPoint EndPoint : FVector K) (Slack : K) (Steps : Nat) :
    Option (List (FVector K)) := do
  let TotalDistance := FVector.Dist M StartPoint EndPoint
  let HorizontalDistance := FVector.Dist M ⟨EndPoint.X, EndPoint.Y, StartPoint.Z⟩ StartPoint
  let WireLength := TotalDistance + max MIN_SLACK Slack
  let HeightDiff := EndPoint.Z - StartPoint.Z
  let TargetRatio ← fdiv (← fsqrt M (WireLength ^ 2 - HeightDiff ^ 2)) HorizontalDistance
  let Z ← FindParameterFixed M TargetRatio
  CatenaryPoints M StartPoint EndPoint HorizontalDistance WireLength HeightDiff Z Steps

end Generic

/-- Modelled from the spec: the helpers `Sinh` and `Cosh` are declared in the header
`SplineHelpers.h`, which is not among the sources; the specification (section 4.1) gives
them the standard real-valued semantics. `FMath::Sqrt` and `FMath::Loge` are the real square
root and natural logarithm, and no real number is infinite. -/
noncomputable def realMath : FloatMath ℝ where
  Sqrt := Real.sqrt
  Loge := Real.log
  Sinh := Real.sinh
  Cosh := Real.cosh
  isinf := fun _ => false

/-! ## Auxiliary functions of the analysis -/

/-- The ratio `sinh z / z` whose value the solvers compare with the target. -/
noncomputable def sinhRatio (z : ℝ) : ℝ := Real.sinh z / z

/-- The derivative of `sinhRatio` as `FindParameterNewton` computes it (line 184). -/
noncomputable def sinhRatioDeriv (z : ℝ) : ℝ :=
  (Real.cosh z * z - Real.sinh z) / (z * z)

/-- One update of `FindParameterNewton` in exact arithmetic (lines 183-187). -/
noncomputable def newtonStep (R z : ℝ) : ℝ :=
  z - (sinhRatio z - R) / sinhRatioDeriv z

/-! # Theorems -/

/-!
## Index of the claims

Each claim has one theorem, named here; a theorem with hypotheses is followed by a witness
of the same name with the suffix `_witness`.

* C1 `GetMeshLenght_abs_sum`: the extent is `|min| + |max|`, `0` for a null mesh.
* C2 `GetSplineMeshStartAndEndByIteration_tangents_le`: tangents no longer than `Bound`.
* C3 `GetTransformPointsAlongSpline_samples`: `⌈L / d⌉ + 1` samples from `0` to `L`.
* C4 `CreateCatenaryNewton_near`: anchors closer than 20 give the empty sequence.
* C5 `CreateCatenaryFixed_near_not_empty`: the fixed sampler has no such guard and returns
  its points (the code departs from the claim).
* C6 `CatenaryPoints_anchors`: with an exact root the curve passes through both anchors.
* C7 `FindParameter_pos`: both solvers return a positive `Z` for a ratio above one.
* C8 `FindParameterNewton_sinh_two`: the ratio `sinh 2 / 2` gives `|Z - 2| < 0.05`.
* C9 `FindParameterFixed_bracket`, with `FindParameterFixed_bracket_counterexample`: the
  bracket property holds for `R > sinh 1 - 0.05` and fails at `R = 1.1`.
* C10 `CatenaryPoints_mid_below`: the middle sample of a level span lies below the anchors.
* C11 `CreateCatenary_deterministic`: equal inputs give equal results.
* C12 `GetMeshCount_floor`: the counts are `⌊d / e⌋`.
* C13 `GetTransformPointsAlongSpline_facing`: the transform of each sample.
* C14 `CreateCatenary_plane`: `x` and `y` are interpolated linearly.
* C15 `GetTransformPointsAlongSpline_zero_length`: a curve of length `0` makes the code
  divide `0` by `0` (the code departs from the claim).
* C16 `CreateCatenary_precondition`: the ratio passed to the solver exceeds one.
* C17 `GetSplineMeshStartAndEndByIteration_adjacent`: tiles of span `Bound`, end to end.
* C18 `GetTransformPointsAlongSpline_spacing`: the spacing `L / n` is at most `d`.
* C19 `FindParameterFixed_ge_initial`: the fixed-step result is at least `1`.
* C20 `FindParameterNewton_no_undershoot`: the Newton iterates stay at or above the root.
-/

section BasicLemmas

variable {K : Type} [LinearOrderedField K]

theorem fdiv_of_ne (a : K) {b : K} (h : b ≠ 0) : fdiv a b = some (a / b) := by
  simp [fdiv, h]

theorem fdiv_zero_right (a : K) : fdiv a 0 = none := by
  simp [fdiv]

/-- A loop body that succeeds on every index makes the whole loop succeed. -/
theorem mapM_eq_some_map {α β : Type} (f : α → Option β) (g : α → β) (l : List α)
    (h : ∀ a ∈ l, f a = some (g a)) : l.mapM f = some (l.map g) := by
  induction l with
  | nil => rfl
  | cons a l ih =>
    have ha : f a = some (g a) := h a (List.mem_cons_self a l)
    have hl : l.mapM f = some (l.map g) := ih fun b hb => h b (List.mem_cons_of_mem a hb)
    rw [List.mapM_cons, ha, hl]
    rfl

end BasicLemmas

/-! ## Mesh extent -/

section MeshExtent

variable {K : Type} [LinearOrderedField K]

/-- C1: on each of the axes X, Y, Z `GetMeshLenght` returns `|min| + |max|` of the bounding
box on that axis; it returns `0` for a null mesh; a box from `-50` to `50` on X has extent
`100`, and a box from `10` to `50` on X has extent `60`, which is not `max - min`. -/
theorem GetMeshLenght_abs_sum (Mesh : UStaticMesh K) :
    GetMeshLenght (some Mesh) EAxis.X
        = |Mesh.GetBoundingBox.Min.X| + |Mesh.GetBoundingBox.Max.X|
    ∧ GetMeshLenght (some Mesh) EAxis.Y
        = |Mesh.GetBoundingBox.Min.Y| + |Mesh.GetBoundingBox.Max.Y|
    ∧ GetMeshLenght (some Mesh) EAxis.Z
        = |Mesh.GetBoundingBox.Min.Z| + |Mesh.GetBoundingBox.Max.Z|
    ∧ (∀ Axis, GetMeshLenght (none : Option (UStaticMesh K)) Axis = 0)
    ∧ GetMeshLenght (some (⟨⟨⟨-50, 0, 0⟩, ⟨50, 0, 0⟩⟩⟩ : UStaticMesh K)) EAxis.X = 100
    ∧ GetMeshLenght (some (⟨⟨⟨10, 0, 0⟩, ⟨50, 0, 0⟩⟩⟩ : UStaticMesh K)) EAxis.X = 60
    ∧ GetMeshLenght (some (⟨⟨⟨10, 0, 0⟩, ⟨50, 0, 0⟩⟩⟩ : UStaticMesh K)) EAxis.X
        ≠ (50 : K) - 10 := by
  refine ⟨rfl, rfl, rfl, fun _ => rfl, ?_, ?_, ?_⟩
  · simp only [GetMeshLenght]
    rw [abs_of_neg (by norm_num), abs_of_pos (by norm_num)]
    norm_num
  · simp only [GetMeshLenght]
    rw [abs_of_pos (by norm_num), abs_of_pos (by norm_num)]
    norm_num
  · simp only [GetMeshLenght]
    rw [abs_of_pos (by norm_num), abs_of_pos (by norm_num)]
    norm_num

end MeshExtent

/-! ## Tangent clamping -/

theorem Size_GetClampedToSize_le (V : FVector ℝ) {Bound : ℝ} (hB : 0 ≤ Bound) :
    (V.GetClampedToSize realMath 0 Bound).Size realMath ≤ Bound := by
  have hc0 : 0 ≤ Clamp (V.Size realMath) 0 Bound := le_max_right _ _
  have hcB : Clamp (V.Size realMath) 0 Bound ≤ Bound := max_le (min_le_right _ _) hB
  by_cases h : V.Size realMath > SMALL_NUMBER
  · have hspos : 0 < V.Size realMath := lt_trans (by norm_num [SMALL_NUMBER]) h
    have hsq : V.X * V.X + V.Y * V.Y + V.Z * V.Z = V.Size realMath * V.Size realMath := by
      simp only [FVector.Size, realMath]
      rw [Real.mul_self_sqrt (by
        nlinarith [mul_self_nonneg V.X, mul_self_nonneg V.Y, mul_self_nonneg V.Z])]
    simp only [FVector.GetClampedToSize, h, if_true]
    generalize Clamp (V.Size realMath) 0 Bound = c at hc0 hcB
    generalize V.Size realMath = s at hspos hsq
    have hne : s ≠ 0 := ne_of_gt hspos
    have key : V.X * (1 / s) * c * (V.X * (1 / s) * c) + V.Y * (1 / s) * c * (V.Y * (1 / s) * c)
        + V.Z * (1 / s) * c * (V.Z * (1 / s) * c) = c * c := by
      have : V.X * (1 / s) * c * (V.X * (1 / s) * c) + V.Y * (1 / s) * c * (V.Y * (1 / s) * c)
          + V.Z * (1 / s) * c * (V.Z * (1 / s) * c)
          = (V.X * V.X + V.Y * V.Y + V.Z * V.Z) * (1 / s) * (1 / s) * (c * c) := by ring
      rw [this, hsq]
      field_simp
    show Real.sqrt _ ≤ Bound
    rw [key, Real.sqrt_mul_self hc0]
    exact hcB
  · simp only [FVector.GetClampedToSize, h, if_false]
    show Real.sqrt _ ≤ Bound
    simpa using hB

/-- C2: for every tile index, offset, curve and every `Bound > 0`, the start and end
tangents produced by `GetSplineMeshStartAndEndByIteration` have Euclidean length at most
`Bound`, whatever tangent the curve reports. -/
theorem GetSplineMeshStartAndEndByIteration_tangents_le (Index : Int) (Bound : ℝ)
    (Spline : USplineComponent ℝ) (NewStartPosition : ℝ) (hB : 0 < Bound) :
    (GetSplineMeshStartAndEndByIteration realMath Index Bound Spline
        NewStartPosition).StartTangent.Size realMath ≤ Bound
    ∧ (GetSplineMeshStartAndEndByIteration realMath Index Bound Spline
        NewStartPosition).EndTangent.Size realMath ≤ Bound :=
  ⟨Size_GetClampedToSize_le _ hB.le, Size_GetClampedToSize_le _ hB.le⟩

/-- Witness of C2: a curve whose tangent has length 3000 everywhere, tiled with
`Bound = 100`. -/
theorem GetSplineMeshStartAndEndByIteration_tangents_le_witness :
    (0 : ℝ) < 100
    ∧ (GetSplineMeshStartAndEndByIteration realMath 2 100
        ⟨1000, fun _ => ⟨⟨0, 0, 0⟩, ⟨0, 0, 0⟩, ⟨1, 1, 1⟩⟩, fun x => ⟨x, 0, 0⟩,
          fun _ => ⟨3000, 0, 0⟩, fun _ => 0⟩ 0).StartTangent.Size realMath ≤ 100
    ∧ (GetSplineMeshStartAndEndByIteration realMath 2 100
        ⟨1000, fun _ => ⟨⟨0, 0, 0⟩, ⟨0, 0, 0⟩, ⟨1, 1, 1⟩⟩, fun x => ⟨x, 0, 0⟩,
          fun _ => ⟨3000, 0, 0⟩, fun _ => 0⟩ 0).EndTangent.Size realMath ≤ 100 :=
  ⟨by norm_num, GetSplineMeshStartAndEndByIteration_tangents_le 2 100 _ 0 (by norm_num)⟩

/-! ## Even spacing along a spline -/

section Sampler

variable {K : Type} [LinearOrderedField K] [FloorRing K]

/-- C3: on a curve of length `L > 0` with spacing `d > 0`, `GetTransformPointsAlongSpline`
returns the transforms of the curve at the distances `(L / n) * i`, `i = 0, ..., n`, where
`n = ⌈L / d⌉`: there are `n + 1` of them, the distances increase strictly, the first is
`0` and the last is `L`. -/
theorem GetTransformPointsAlongSpline_samples (spline : USplineComponent K) (d : K)
    (bFacingUp : Bool) (hL : 0 < spline.GetSplineLength) (hd : 0 < d) :
    ∃ distances : List K,
      distances = (List.range (⌈spline.GetSplineLength / d⌉ + 1).toNat).map
        (fun (i : Nat) =>
          spline.GetSplineLength / (⌈spline.GetSplineLength / d⌉ : K) * (i : K))
      ∧ GetTransformPointsAlongSpline spline d bFacingUp = some (distances.map fun x =>
          if bFacingUp then
            ⟨⟨0, (spline.GetTransformAtDistanceAlongSpline x).Rotator.Yaw,
                (spline.GetTransformAtDistanceAlongSpline x).Rotator.Roll⟩,
              (spline.GetTransformAtDistanceAlongSpline x).GetLocation, ⟨1, 1, 1⟩⟩
          else spline.GetTransformAtDistanceAlongSpline x)
      ∧ (distances.length : Int) = ⌈spline.GetSplineLength / d⌉ + 1
      ∧ distances.Pairwise (fun x y => x < y)
      ∧ distances.head? = some 0
      ∧ distances.getLast? = some spline.GetSplineLength := by
  have hq : 0 < spline.GetSplineLength / d := div_pos hL hd
  have hn : 0 < ⌈spline.GetSplineLength / d⌉ := Int.ceil_pos.mpr hq
  have hnK : (0 : K) < (⌈spline.GetSplineLength / d⌉ : K) := by exact_mod_cast hn
  have hstep : 0 < spline.GetSplineLength / (⌈spline.GetSplineLength / d⌉ : K) :=
    div_pos hL hnK
  obtain ⟨m, hm⟩ : ∃ m : Nat, ⌈spline.GetSplineLength / d⌉ = (m : Int) :=
    ⟨_, (Int.toNat_of_nonneg hn.le).symm⟩
  have hmK : (⌈spline.GetSplineLength / d⌉ : K) = (m : K) := by rw [hm]; simp
  have hto : (⌈spline.GetSplineLength / d⌉ + 1).toNat = m + 1 := by rw [hm]; rfl
  refine ⟨_, rfl, ?_, ?_, ?_, ?_, ?_⟩
  · simp only [GetTransformPointsAlongSpline, fdiv_of_ne _ hd.ne', fdiv_of_ne _ hnK.ne',
      bind_pure_comp, Option.bind_eq_bind, Option.some_bind, List.map_map]
    refine mapM_eq_some_map _ _ _ fun i _ => ?_
    cases bFacingUp <;> simp
  · rw [List.length_map, List.length_range, hto, hm]
    push_cast
    rfl
  · rw [List.pairwise_map]
    refine List.Pairwise.imp ?_ (List.pairwise_lt_range _)
    intro i j hij
    exact mul_lt_mul_of_pos_left (by exact_mod_cast hij) hstep
  · rw [hto, List.range_succ_eq_map]
    simp
  · rw [hto, List.range_succ, List.map_append, hmK]
    have hm0 : (m : K) ≠ 0 := by rw [← hmK]; exact hnK.ne'
    simp [div_mul_cancel₀ _ hm0]

end Sampler

/-- Witness of C3: a curve of length 1000 sampled every 100 units gives 11 transforms, the
first queried at distance 0 and the last at distance 1000. -/
theorem GetTransformPointsAlongSpline_samples_witness :
    ∃ distances : List ℚ,
      GetTransformPointsAlongSpline
          (⟨1000, fun x => ⟨⟨0, 0, 0⟩, ⟨x, 0, 0⟩, ⟨1, 1, 1⟩⟩, fun x => ⟨x, 0, 0⟩,
            fun _ => ⟨1, 0, 0⟩, fun _ => 0⟩ : USplineComponent ℚ) 100 false
        = some (distances.map fun x => ⟨⟨0, 0, 0⟩, ⟨x, 0, 0⟩, ⟨1, 1, 1⟩⟩)
      ∧ distances.length = 11
      ∧ distances.head? = some 0
      ∧ distances.getLast? = some 1000 := by
  obtain ⟨ds, -, hres, hlen, -, hhead, hlast⟩ := GetTransformPointsAlongSpline_samples
    (⟨1000, fun x => ⟨⟨0, 0, 0⟩, ⟨x, 0, 0⟩, ⟨1, 1, 1⟩⟩, fun x => ⟨x, 0, 0⟩,
      fun _ => ⟨1, 0, 0⟩, fun _ => 0⟩ : USplineComponent ℚ) 100 false
    (by norm_num) (by norm_num)
  refine ⟨ds, by simpa using hres, ?_, hhead, hlast⟩
  have h10 : ((1000 : ℚ) / 100) = ((10 : Int) : ℚ) := by norm_num
  simp only [h10, Int.ceil_intCast] at hlen
  omega

/-! ## The degenerate-span guard -/

theorem abs_sub_lt_of_Dist_lt (S E : FVector ℝ) {r : ℝ} (h : FVector.Dist realMath S E < r) :
    |S.X - E.X| < r ∧ |S.Y - E.Y| < r ∧ |S.Z - E.Z| < r := by
  simp only [FVector.Dist, realMath] at h
  refine ⟨lt_of_le_of_lt (Real.abs_le_sqrt ?_) h, lt_of_le_of_lt (Real.abs_le_sqrt ?_) h,
    lt_of_le_of_lt (Real.abs_le_sqrt ?_) h⟩
  · nlinarith [mul_self_nonneg (E.Y - S.Y), mul_self_nonneg (E.Z - S.Z)]
  · nlinarith [mul_self_nonneg (E.X - S.X), mul_self_nonneg (E.Z - S.Z)]
  · nlinarith [mul_self_nonneg (E.X - S.X), mul_self_nonneg (E.Y - S.Y)]

/-- C4: when the Euclidean distance of the two anchors is below 20, `CreateCatenaryNewton`
returns the empty sequence, for every slack, slack variation, random source and step
count. -/
theorem CreateCatenaryNewton_near (MIN_SLACK : ℝ) (FRandRange : ℝ → ℝ → ℝ)
    (StartPoint EndPoint : FVector ℝ) (Slack SlackVariation : ℝ) (Steps : Nat)
    (h : FVector.Dist realMath StartPoint EndPoint < 20) :
    CreateCatenaryNewton realMath MIN_SLACK FRandRange StartPoint EndPoint Slack
      SlackVariation Steps = some [] := by
  obtain ⟨hx, hy, hz⟩ := abs_sub_lt_of_Dist_lt StartPoint EndPoint h
  simp [CreateCatenaryNewton, FVector.PointsAreNear, not_le.mpr hx, not_le.mpr hy,
    not_le.mpr hz]

/-- Witness of C4: the anchors `(0,0,0)` and `(3,4,0)` are 5 units apart. -/
theorem CreateCatenaryNewton_near_witness :
    FVector.Dist realMath ⟨0, 0, 0⟩ ⟨3, 4, 0⟩ < 20
    ∧ CreateCatenaryNewton realMath 1 (fun _ b => b) ⟨0, 0, 0⟩ ⟨3, 4, 0⟩ 100 2 10
        = some [] := by
  have h : FVector.Dist realMath ⟨0, 0, 0⟩ ⟨3, 4, 0⟩ < 20 := by
    simp only [FVector.Dist, realMath]
    rw [Real.sqrt_lt' (by norm_num)]
    norm_num
  exact ⟨h, CreateCatenaryNewton_near 1 (fun _ b => b) ⟨0, 0, 0⟩ ⟨3, 4, 0⟩ 100 2 10 h⟩

/-! ## The function `sinh z / z` -/

section Analysis

open Real Set

theorem sinh_lt_mul_cosh {z : ℝ} (hz : 0 < z) : sinh z < z * cosh z := by
  have hmono : StrictMonoOn (fun x : ℝ => x * cosh x - sinh x) (Ici 0) := by
    refine @strictMonoOn_of_hasDerivWithinAt_pos (Ici 0) (convex_Ici 0)
      (fun x : ℝ => x * cosh x - sinh x) (fun x => x * sinh x) ?_ ?_ ?_
    · exact Continuous.continuousOn (by continuity)
    · intro x _
      have h1 : HasDerivAt (fun x : ℝ => x * cosh x - sinh x)
          (1 * cosh x + x * sinh x - cosh x) x :=
        ((hasDerivAt_id x).mul (hasDerivAt_cosh x)).sub (hasDerivAt_sinh x)
      have h2 : 1 * cosh x + x * sinh x - cosh x = x * sinh x := by ring
      rw [h2] at h1
      exact h1.hasDerivWithinAt
    · intro x hx
      rw [interior_Ici] at hx
      exact mul_pos hx (sinh_pos_iff.mpr hx)
  have := hmono (left_mem_Ici) (le_of_lt hz : z ∈ Ici 0) hz
  simp at this
  linarith

theorem two_sinh_lt {z : ℝ} (hz : 0 < z) : 2 * sinh z < z * (cosh z + 1) := by
  have h := sinh_lt_mul_cosh (half_pos hz)
  have hs : sinh z = 2 * sinh (z / 2) * cosh (z / 2) := by
    rw [← sinh_two_mul]; congr 1; ring
  have hc : cosh z = cosh (z / 2) ^ 2 + sinh (z / 2) ^ 2 := by
    rw [← cosh_two_mul]; congr 1; ring
  have hsq := cosh_sq (z / 2)
  have hcp := cosh_pos (z / 2)
  rw [hs, hc]
  nlinarith [mul_pos hcp hcp, mul_lt_mul_of_pos_right h hcp]

theorem curv_nonneg {z : ℝ} (hz : 0 ≤ z) : 0 ≤ z ^ 2 * sinh z - 2 * z * cosh z + 2 * sinh z := by
  have hmono : MonotoneOn (fun x : ℝ => x ^ 2 * sinh x - 2 * x * cosh x + 2 * sinh x) (Ici 0) := by
    refine @monotoneOn_of_hasDerivWithinAt_nonneg (Ici 0) (convex_Ici 0)
      (fun x : ℝ => x ^ 2 * sinh x - 2 * x * cosh x + 2 * sinh x) (fun x => x ^ 2 * cosh x)
      ?_ ?_ ?_
    · exact Continuous.continuousOn (by continuity)
    · intro x _
      have h1 : HasDerivAt (fun x : ℝ => x ^ 2 * sinh x - 2 * x * cosh x + 2 * sinh x)
          (((2 : ℕ) * x ^ (2 - 1) * 1) * sinh x + x ^ 2 * cosh x
            - ((2 * 1) * cosh x + 2 * x * sinh x) + 2 * cosh x) x :=
        ((((hasDerivAt_id x).pow 2).mul (hasDerivAt_sinh x)).sub
          (((hasDerivAt_id x).const_mul 2).mul (hasDerivAt_cosh x))).add
          ((hasDerivAt_sinh x).const_mul 2)
      have h2 : ((2 : ℕ) * x ^ (2 - 1) * 1) * sinh x + x ^ 2 * cosh x
            - ((2 * 1) * cosh x + 2 * x * sinh x) + 2 * cosh x = x ^ 2 * cosh x := by
        norm_num; ring
      rw [h2] at h1
      exact h1.hasDerivWithinAt
    · intro x _
      exact mul_nonneg (sq_nonneg x) (cosh_pos x).le
  have := hmono (left_mem_Ici) (hz : z ∈ Ici 0) hz
  simpa using this

theorem hasDerivAt_sinhRatio {z : ℝ} (hz : z ≠ 0) :
    HasDerivAt sinhRatio (sinhRatioDeriv z) z := by
  have h := (hasDerivAt_sinh z).div (hasDerivAt_id z) hz
  have e : (cosh z * id z - sinh z * 1) / id z ^ 2 = sinhRatioDeriv z := by
    simp only [sinhRatioDeriv, id]
    rw [mul_one, sq]
  rw [e] at h
  exact h

theorem hasDerivAt_sinhRatioDeriv {z : ℝ} (hz : z ≠ 0) :
    HasDerivAt sinhRatioDeriv
      ((z ^ 2 * sinh z - 2 * z * cosh z + 2 * sinh z) / z ^ 3) z := by
  have hnum : HasDerivAt (fun x : ℝ => cosh x * x - sinh x)
      (sinh z * z + cosh z * 1 - cosh z) z :=
    ((hasDerivAt_cosh z).mul (hasDerivAt_id z)).sub (hasDerivAt_sinh z)
  have hden : HasDerivAt (fun x : ℝ => x * x) (1 * z + z * 1) z :=
    (hasDerivAt_id z).mul (hasDerivAt_id z)
  have h := hnum.div hden (mul_ne_zero hz hz)
  have e : ((sinh z * z + cosh z * 1 - cosh z) * (z * z)
      - (cosh z * z - sinh z) * (1 * z + z * 1)) / (z * z) ^ 2
      = (z ^ 2 * sinh z - 2 * z * cosh z + 2 * sinh z) / z ^ 3 := by
    field_simp
    ring
  rw [e] at h
  exact h

theorem sinhRatioDeriv_pos {z : ℝ} (hz : 0 < z) : 0 < sinhRatioDeriv z := by
  have := sinh_lt_mul_cosh hz
  exact div_pos (by linarith) (mul_pos hz hz)

theorem convexOn_sinhRatio : ConvexOn ℝ (Ioi 0) sinhRatio := by
  refine @convexOn_of_hasDerivWithinAt2_nonneg (Ioi 0) (convex_Ioi 0) sinhRatio sinhRatioDeriv
    (fun z => (z ^ 2 * sinh z - 2 * z * cosh z + 2 * sinh z) / z ^ 3) ?_ ?_ ?_ ?_
  · intro z hz
    exact (hasDerivAt_sinhRatio (ne_of_gt hz)).continuousAt.continuousWithinAt
  · intro z hz
    rw [interior_Ioi] at hz
    exact (hasDerivAt_sinhRatio (ne_of_gt hz)).hasDerivWithinAt
  · intro z hz
    rw [interior_Ioi] at hz
    exact (hasDerivAt_sinhRatioDeriv (ne_of_gt hz)).hasDerivWithinAt
  · intro z hz
    rw [interior_Ioi] at hz
    exact div_nonneg (curv_nonneg (le_of_lt hz)) (pow_nonneg (le_of_lt hz) 3)

/-- The graph of `sinhRatio` lies above each of its tangents on the positive axis. -/
theorem sinhRatio_tangent_le {x y : ℝ} (hx : 0 < x) (hy : 0 < y) :
    sinhRatio x + sinhRatioDeriv x * (y - x) ≤ sinhRatio y := by
  rcases lt_trichotomy x y with h | h | h
  · have := convexOn_sinhRatio.le_slope_of_hasDerivAt (mem_Ioi.mpr hx) (mem_Ioi.mpr hy) h
      (hasDerivAt_sinhRatio (ne_of_gt hx))
    rw [slope_def_field, le_div_iff₀ (sub_pos.mpr h)] at this
    linarith
  · subst h; simp
  · have := convexOn_sinhRatio.slope_le_of_hasDerivAt (mem_Ioi.mpr hy) (mem_Ioi.mpr hx) h
      (hasDerivAt_sinhRatio (ne_of_gt hx))
    rw [slope_def_field, div_le_iff₀ (sub_pos.mpr h)] at this
    linarith

theorem sinhRatio_strictMonoOn : StrictMonoOn sinhRatio (Ioi 0) := by
  intro x hx y hy hxy
  have := sinhRatio_tangent_le (mem_Ioi.mp hx) (mem_Ioi.mp hy)
  have := mul_pos (sinhRatioDeriv_pos (mem_Ioi.mp hx)) (sub_pos.mpr hxy)
  linarith

theorem sinhRatioDeriv_monotoneOn : MonotoneOn sinhRatioDeriv (Ioi 0) := by
  intro x hx y hy hxy
  have h1 := sinhRatio_tangent_le (mem_Ioi.mp hx) (mem_Ioi.mp hy)
  have h2 := sinhRatio_tangent_le (mem_Ioi.mp hy) (mem_Ioi.mp hx)
  rcases eq_or_lt_of_le hxy with h | h
  · rw [h]
  · have : 0 < y - x := sub_pos.mpr h
    nlinarith

/-! ## Numeric bounds -/

theorem sinh_cosh_one_bounds :
    (1.1752 : ℝ) < sinh 1 ∧ sinh 1 < 1.1753 ∧ (1.543 : ℝ) < cosh 1 ∧ cosh 1 < 1.5431 := by
  have hlo := exp_one_gt_d9
  have hhi := exp_one_lt_d9
  have hpos : 0 < exp (-1 : ℝ) := exp_pos _
  have hmul : exp (-1 : ℝ) * exp 1 = 1 := by rw [← exp_add]; simp
  have hinv_hi : exp (-1 : ℝ) < 0.36788 := by nlinarith
  have hinv_lo : (0.36787 : ℝ) < exp (-1 : ℝ) := by nlinarith
  rw [sinh_eq, cosh_eq]
  refine ⟨?_, ?_, ?_, ?_⟩ <;> norm_num at * <;> linarith

theorem sinh_cosh_two_bounds :
    (3.6266 : ℝ) < sinh 2 ∧ sinh 2 < 3.6273 ∧ (3.7619 : ℝ) < cosh 2 ∧ cosh 2 < 3.7625 := by
  obtain ⟨h1, h2, h3, h4⟩ := sinh_cosh_one_bounds
  have hs : sinh 2 = 2 * sinh 1 * cosh 1 := by
    rw [← sinh_two_mul]; norm_num
  have hc : cosh 2 = cosh 1 ^ 2 + sinh 1 ^ 2 := by
    rw [← cosh_two_mul]; norm_num
  rw [hs, hc]
  refine ⟨?_, ?_, ?_, ?_⟩ <;> nlinarith

theorem sinh_cosh_three_bounds :
    (10.016 : ℝ) < sinh 3 ∧ cosh 3 < 10.07 := by
  obtain ⟨h1, h2, h3, h4⟩ := sinh_cosh_one_bounds
  obtain ⟨k1, k2, k3, k4⟩ := sinh_cosh_two_bounds
  have hs : sinh 3 = sinh 2 * cosh 1 + cosh 2 * sinh 1 := by
    rw [← sinh_add]; norm_num
  have hc : cosh 3 = cosh 2 * cosh 1 + sinh 2 * sinh 1 := by
    rw [← cosh_add]; norm_num
  rw [hs, hc]
  refine ⟨?_, ?_⟩ <;> nlinarith

theorem sinhRatioDeriv_two_bounds : (0.92 : ℝ) < sinhRatioDeriv 2 ∧ sinhRatioDeriv 2 < 1 := by
  obtain ⟨k1, k2, k3, k4⟩ := sinh_cosh_two_bounds
  simp only [sinhRatioDeriv]
  constructor
  · rw [lt_div_iff₀ (by norm_num)]; linarith
  · rw [div_lt_iff₀ (by norm_num)]; linarith

theorem sinhRatioDeriv_three_lt : sinhRatioDeriv 3 < 2.3 := by
  obtain ⟨k1, k2⟩ := sinh_cosh_three_bounds
  simp only [sinhRatioDeriv]
  rw [div_lt_iff₀ (by norm_num)]; linarith

/-! ## The solvers in exact arithmetic -/

theorem NewtonLoop_succ (R : ℝ) (n : Nat) {z : ℝ} (hz : 0 < z) :
    NewtonLoop realMath R (n + 1) z
      = if |(sinhRatio z - R) / sinhRatioDeriv z| < 0.01 then some (newtonStep R z)
        else NewtonLoop realMath R n (newtonStep R z) := by
  have h1 : (Real.cosh z * z - Real.sinh z) / (z * z) ≠ 0 := (sinhRatioDeriv_pos hz).ne'
  simp only [NewtonLoop, realMath, fdiv_of_ne _ hz.ne', fdiv_of_ne _ (mul_ne_zero hz.ne' hz.ne'),
    fdiv_of_ne _ h1, Option.bind_eq_bind, Option.some_bind]
  rfl

theorem newtonStep_pos {R z : ℝ} (hR : 1 < R) (hz : 0 < z) : 0 < newtonStep R z := by
  have hd := sinhRatioDeriv_pos hz
  have h2 := two_sinh_lt hz
  have key : sinhRatio z - R < z * sinhRatioDeriv z := by
    have e1 : z * sinhRatioDeriv z = cosh z - sinhRatio z := by
      simp only [sinhRatioDeriv, sinhRatio]; field_simp; ring
    have e2 : 2 * sinhRatio z < cosh z + 1 := by
      simp only [sinhRatio]
      rw [← mul_div_assoc, div_lt_iff₀ hz]
      linarith
    linarith
  have : (sinhRatio z - R) / sinhRatioDeriv z < z := by
    rw [div_lt_iff₀ hd]; exact key
  simp only [newtonStep]; linarith

theorem NewtonLoop_pos {R : ℝ} (hR : 1 < R) (n : Nat) :
    ∀ z : ℝ, 0 < z → ∃ r, NewtonLoop realMath R n z = some r ∧ 0 < r := by
  induction n with
  | zero => intro z hz; exact ⟨z, rfl, hz⟩
  | succ n ih =>
    intro z hz
    rw [NewtonLoop_succ R n hz]
    split_ifs
    · exact ⟨_, rfl, newtonStep_pos hR hz⟩
    · exact ih _ (newtonStep_pos hR hz)

theorem FixedInner_succ (R s : ℝ) (j : Nat) {z : ℝ} (hz : 0 < z + s) :
    FixedInner realMath R s (j + 1) z
      = if |sinhRatio (z + s) - R| < 0.05 then some (Flow.Return (z + s))
        else if sinhRatio (z + s) > R then some (Flow.Next z)
        else FixedInner realMath R s j (z + s) := by
  simp only [FixedInner, realMath, fdiv_of_ne _ hz.ne', Option.bind_eq_bind, Option.some_bind]
  rfl

theorem FixedOuter_of_Return {R s z t : ℝ} (i : Nat)
    (h : FixedInner realMath R s 5 z = some (Flow.Return t)) :
    FixedOuter realMath R (i + 1) z s = some t := by
  simp only [FixedOuter, h, Option.bind_eq_bind, Option.some_bind]

theorem FixedOuter_of_Next {R s z z' : ℝ} (i : Nat)
    (h : FixedInner realMath R s 5 z = some (Flow.Next z')) :
    FixedOuter realMath R (i + 1) z s = FixedOuter realMath R i z' (s * 0.2) := by
  simp only [FixedOuter, h, Option.bind_eq_bind, Option.some_bind]

/-- The inner loop keeps `Z` at or above the initial guess, and a `Z` it has moved is a lower
bracket of the target. -/
theorem FixedInner_inv (R : ℝ) {s : ℝ} (hs : 0 < s) (j : Nat) :
    ∀ z : ℝ, 1 ≤ z → (z = 1 ∨ sinhRatio z ≤ R) →
      (∃ t, FixedInner realMath R s j z = some (Flow.Return t)
          ∧ 1 ≤ t ∧ |sinhRatio t - R| < 0.05)
      ∨ (∃ z', FixedInner realMath R s j z = some (Flow.Next z')
          ∧ 1 ≤ z' ∧ (z' = 1 ∨ sinhRatio z' ≤ R)) := by
  induction j with
  | zero => intro z hz hb; exact Or.inr ⟨z, rfl, hz, hb⟩
  | succ j ih =>
    intro z hz hb
    rw [FixedInner_succ R s j (by linarith)]
    split_ifs with h1 h2
    · exact Or.inl ⟨_, rfl, by linarith, h1⟩
    · exact Or.inr ⟨_, rfl, hz, hb⟩
    · exact ih _ (by linarith) (Or.inr (not_lt.mp h2))

theorem FixedOuter_inv (R : ℝ) (i : Nat) :
    ∀ s z : ℝ, 0 < s → 1 ≤ z → (z = 1 ∨ sinhRatio z ≤ R) →
      ∃ r, FixedOuter realMath R i z s = some r ∧ 1 ≤ r
        ∧ (|sinhRatio r - R| < 0.05 ∨ r = 1 ∨ sinhRatio r ≤ R) := by
  induction i with
  | zero => intro s z _ hz hb; exact ⟨z, rfl, hz, Or.inr hb⟩
  | succ i ih =>
    intro s z hs hz hb
    rcases FixedInner_inv R hs 5 z hz hb with ⟨t, ht, h1, h2⟩ | ⟨z', hz', h1, h2⟩
    · exact ⟨t, FixedOuter_of_Return i ht, h1, Or.inl h2⟩
    · rw [FixedOuter_of_Next i hz']
      exact ih _ _ (by positivity) h1 h2

/-- A Newton step from any positive point lands at or beyond a positive root. -/
theorem le_newtonStep {R z z₀ : ℝ} (hz : 0 < z) (hz₀ : 0 < z₀) (hroot : sinhRatio z₀ = R) :
    z₀ ≤ newtonStep R z := by
  have hd := sinhRatioDeriv_pos hz
  have ht := sinhRatio_tangent_le hz hz₀
  have : (sinhRatio z - R) / sinhRatioDeriv z ≤ z - z₀ := by
    rw [div_le_iff₀ hd]; rw [hroot] at ht; nlinarith
  simp only [newtonStep]; linarith

/-- Where the ratio is at or above the target, a Newton step does not move right. -/
theorem newtonStep_le {R z : ℝ} (hz : 0 < z) (h : R ≤ sinhRatio z) : newtonStep R z ≤ z := by
  have hd := sinhRatioDeriv_pos hz
  have : 0 ≤ (sinhRatio z - R) / sinhRatioDeriv z := div_nonneg (by linarith) hd.le
  simp only [newtonStep]; linarith

theorem sinhRatio_two_le {z : ℝ} (hz : 2 ≤ z) : sinhRatio 2 ≤ sinhRatio z :=
  sinhRatio_strictMonoOn.monotoneOn (mem_Ioi.mpr (by norm_num)) (mem_Ioi.mpr (by linarith)) hz

theorem newtonStep_contract {z : ℝ} (h2 : 2 ≤ z) (h3 : z ≤ 3) :
    newtonStep (sinhRatio 2) z - 2 ≤ 0.6 * (z - 2) := by
  have hz : 0 < z := by linarith
  have hd := sinhRatioDeriv_pos hz
  have ht := sinhRatio_tangent_le (by norm_num : (0 : ℝ) < 2) hz
  have hd3 : sinhRatioDeriv z ≤ sinhRatioDeriv 3 :=
    sinhRatioDeriv_monotoneOn (mem_Ioi.mpr hz) (mem_Ioi.mpr (by norm_num)) h3
  have hb3 := sinhRatioDeriv_three_lt
  have hb2 := sinhRatioDeriv_two_bounds.1
  have : 0.4 * (z - 2) ≤ (sinhRatio z - sinhRatio 2) / sinhRatioDeriv z := by
    rw [le_div_iff₀ hd]
    nlinarith
  simp only [newtonStep]; linarith

theorem newtonStep_close {z : ℝ} (h2 : 2 ≤ z) (h3 : z ≤ 3)
    (hstep : |(sinhRatio z - sinhRatio 2) / sinhRatioDeriv z| < 0.01) :
    newtonStep (sinhRatio 2) z - 2 ≤ 0.025 := by
  have hz : 0 < z := by linarith
  have hd := sinhRatioDeriv_pos hz
  have ht := sinhRatio_tangent_le (by norm_num : (0 : ℝ) < 2) hz
  have hd3 : sinhRatioDeriv z ≤ sinhRatioDeriv 3 :=
    sinhRatioDeriv_monotoneOn (mem_Ioi.mpr hz) (mem_Ioi.mpr (by norm_num)) h3
  have hb3 := sinhRatioDeriv_three_lt
  have hb2 := sinhRatioDeriv_two_bounds.1
  have hle := newtonStep_le hz (sinhRatio_two_le h2)
  have h1 : (sinhRatio z - sinhRatio 2) / sinhRatioDeriv z < 0.01 := (abs_lt.mp hstep).2
  rw [div_lt_iff₀ hd] at h1
  nlinarith

theorem NewtonLoop_near_two (n : Nat) :
    ∀ z : ℝ, 2 ≤ z → z ≤ 3 →
      ∃ r, NewtonLoop realMath (sinhRatio 2) n z = some r ∧ 2 ≤ r
        ∧ (r - 2 ≤ 0.025 ∨ r - 2 ≤ 0.6 ^ n * (z - 2)) := by
  induction n with
  | zero => intro z h2 _; exact ⟨z, rfl, h2, Or.inr (by simp)⟩
  | succ n ih =>
    intro z h2 h3
    have hz : 0 < z := by linarith
    have hge : 2 ≤ newtonStep (sinhRatio 2) z := le_newtonStep hz (by norm_num) rfl
    have hle := newtonStep_le hz (sinhRatio_two_le h2)
    rw [NewtonLoop_succ _ n hz]
    split_ifs with hbr
    · exact ⟨_, rfl, hge, Or.inl (newtonStep_close h2 h3 hbr)⟩
    · obtain ⟨r, hr, hr2, hr3⟩ := ih _ hge (by linarith)
      refine ⟨r, hr, hr2, ?_⟩
      rcases hr3 with h | h
      · exact Or.inl h
      · refine Or.inr (le_trans h ?_)
        have hc := newtonStep_contract h2 h3
        have hp : (0 : ℝ) ≤ 0.6 ^ n := by positivity
        calc (0.6 : ℝ) ^ n * (newtonStep (sinhRatio 2) z - 2)
            ≤ 0.6 ^ n * (0.6 * (z - 2)) := mul_le_mul_of_nonneg_left hc hp
          _ = 0.6 ^ (n + 1) * (z - 2) := by ring

theorem newtonStep_one_bounds :
    2 ≤ newtonStep (sinhRatio 2) 1 ∧ newtonStep (sinhRatio 2) 1 ≤ 2.74 := by
  refine ⟨le_newtonStep (by norm_num) (by norm_num) rfl, ?_⟩
  obtain ⟨h1, h2, h3, h4⟩ := sinh_cosh_one_bounds
  obtain ⟨k1, k2, k3, k4⟩ := sinh_cosh_two_bounds
  have hd := sinhRatioDeriv_pos (by norm_num : (0 : ℝ) < 1)
  have hd1 : sinhRatioDeriv 1 = cosh 1 - sinh 1 := by simp [sinhRatioDeriv]
  have : -1.74 ≤ (sinhRatio 1 - sinhRatio 2) / sinhRatioDeriv 1 := by
    rw [le_div_iff₀ hd, hd1]
    simp only [sinhRatio, div_one]
    linarith
  simp only [newtonStep]; linarith

/-- C8: given the target ratio `sinh 2 / 2`, `FindParameterNewton` (initial guess 1, at most
8 iterations, stop once the update step is below 0.01 in absolute value) divides by no zero
and returns a `Z` with `|Z - 2| < 0.05`. -/
theorem FindParameterNewton_sinh_two :
    ∃ Z, FindParameterNewton realMath (Real.sinh 2 / 2) = some Z ∧ |Z - 2| < 0.05 := by
  obtain ⟨hlo, hhi⟩ := newtonStep_one_bounds
  have hstep : ¬ |(sinhRatio 1 - sinhRatio 2) / sinhRatioDeriv 1| < 0.01 := by
    have : (sinhRatio 1 - sinhRatio 2) / sinhRatioDeriv 1 ≤ -1 := by
      simp only [newtonStep] at hlo; linarith
    rw [abs_of_nonpos (by linarith)]
    norm_num; linarith
  obtain ⟨r, hr, hr2, hr3⟩ := NewtonLoop_near_two 7 _ hlo (by linarith)
  refine ⟨r, ?_, ?_⟩
  · show NewtonLoop realMath (sinhRatio 2) 8 1 = some r
    rw [NewtonLoop_succ _ 7 (by norm_num), if_neg hstep]
    exact hr
  · rw [abs_of_nonneg (by linarith)]
    rcases hr3 with h | h
    · linarith
    · have : (0.6 : ℝ) ^ 7 * (newtonStep (sinhRatio 2) 1 - 2) ≤ 0.6 ^ 7 * 0.74 :=
        mul_le_mul_of_nonneg_left (by linarith) (by positivity)
      have : (0.6 : ℝ) ^ 7 * 0.74 < 0.05 := by norm_num
      linarith

/-! ### The fixed-step solver below its initial guess -/

theorem sinhRatio_one : sinhRatio 1 = sinh 1 := by simp [sinhRatio]

/-- A step that overshoots the target by at least the tolerance ends the inner loop. -/
theorem FixedInner_over {R s z : ℝ} (j : Nat) (hz : 0 < z + s)
    (h : R + 0.05 ≤ sinhRatio (z + s)) :
    FixedInner realMath R s (j + 1) z = some (Flow.Next z) := by
  rw [FixedInner_succ R s j hz, if_neg, if_pos]
  · show R < sinhRatio (z + s)
    linarith
  · rw [abs_of_nonneg (by linarith)]
    linarith

/-- A step that stays below the target by at least the tolerance is taken. -/
theorem FixedInner_under {R s z : ℝ} (j : Nat) (hz : 0 < z + s)
    (h : sinhRatio (z + s) ≤ R - 0.05) :
    FixedInner realMath R s (j + 1) z = FixedInner realMath R s j (z + s) := by
  rw [FixedInner_succ R s j hz, if_neg, if_neg]
  · show ¬ R < sinhRatio (z + s)
    linarith
  · rw [abs_of_nonpos (by linarith)]
    linarith

/-- A step that lands within the tolerance is returned. -/
theorem FixedInner_hit {R s z : ℝ} (j : Nat) (hz : 0 < z + s)
    (h : |sinhRatio (z + s) - R| < 0.05) :
    FixedInner realMath R s (j + 1) z = some (Flow.Return (z + s)) := by
  rw [FixedInner_succ R s j hz, if_pos h]

/-- With a target at least the tolerance below `sinh 1`, no round moves `Z`. -/
theorem FixedOuter_stuck {R : ℝ} (hR : R ≤ sinh 1 - 0.05) (i : Nat) :
    ∀ s : ℝ, 0 < s → FixedOuter realMath R i 1 s = some 1 := by
  induction i with
  | zero => intro s _; rfl
  | succ i ih =>
    intro s hs
    have hmono : sinhRatio 1 < sinhRatio (1 + s) :=
      sinhRatio_strictMonoOn (mem_Ioi.mpr one_pos) (mem_Ioi.mpr (by linarith)) (by linarith)
    rw [sinhRatio_one] at hmono
    rw [FixedOuter_of_Next i (FixedInner_over 4 (by linarith) (by linarith))]
    exact ih _ (by positivity)

theorem FindParameterFixed_stuck {R : ℝ} (hR : R ≤ sinh 1 - 0.05) :
    FindParameterFixed realMath R = some 1 :=
  FixedOuter_stuck hR 8 10 (by norm_num)

/-! ### The fixed-step solver at the target `sinh 2 / 2` -/

theorem sinhRatio_over_two {t : ℝ} (ht : 2.2 ≤ t) : sinhRatio 2 + 0.05 ≤ sinhRatio t := by
  have h := sinhRatio_tangent_le (by norm_num : (0 : ℝ) < 2) (by linarith : (0 : ℝ) < t)
  have hb := sinhRatioDeriv_two_bounds.1
  nlinarith

theorem sinhRatio_under_two {t : ℝ} (h1 : 1 ≤ t) (ht : t ≤ 1.88) :
    sinhRatio t ≤ sinhRatio 2 - 0.05 := by
  have hc := convexOn_sinhRatio.2 (mem_Ioi.mpr (one_pos : (0 : ℝ) < 1))
    (mem_Ioi.mpr (by norm_num : (0 : ℝ) < 2)) (by linarith : (0 : ℝ) ≤ 2 - t)
    (by linarith : (0 : ℝ) ≤ t - 1) (by ring)
  have e : (2 - t) • (1 : ℝ) + (t - 1) • (2 : ℝ) = t := by
    simp only [smul_eq_mul]; ring
  rw [e] at hc
  simp only [smul_eq_mul] at hc
  obtain ⟨h1', h2', -, -⟩ := sinh_cosh_one_bounds
  obtain ⟨k1, k2, -, -⟩ := sinh_cosh_two_bounds
  have e1 : sinhRatio 1 = sinh 1 := sinhRatio_one
  have e2 : sinhRatio 2 = sinh 2 / 2 := rfl
  rw [e1, e2] at hc
  rw [e2]
  nlinarith

theorem sinhRatio_near_two : |sinhRatio 1.96 - sinhRatio 2| < 0.05 := by
  have h := sinhRatio_tangent_le (by norm_num : (0 : ℝ) < 2) (by norm_num : (0 : ℝ) < 1.96)
  have hb := sinhRatioDeriv_two_bounds.2
  have hm : sinhRatio 1.96 < sinhRatio 2 :=
    sinhRatio_strictMonoOn (mem_Ioi.mpr (by norm_num)) (mem_Ioi.mpr (by norm_num))
      (by norm_num)
  rw [abs_of_neg (by linarith)]
  nlinarith

theorem FindParameterFixed_sinh_two :
    FindParameterFixed realMath (sinh 2 / 2) = some 1.96 := by
  show FixedOuter realMath (sinhRatio 2) 8 1 10 = some 1.96
  rw [FixedOuter_of_Next 7 (FixedInner_over 4 (by norm_num) (sinhRatio_over_two (by norm_num))),
    FixedOuter_of_Next 6 (FixedInner_over 4 (by norm_num) (sinhRatio_over_two (by norm_num)))]
  have h3 : FixedInner realMath (sinhRatio 2) (10 * 0.2 * 0.2) 5 1
      = some (Flow.Next (1 + 10 * 0.2 * 0.2 + 10 * 0.2 * 0.2)) := by
    rw [FixedInner_under 4 (by norm_num) (sinhRatio_under_two (by norm_num) (by norm_num)),
      FixedInner_under 3 (by norm_num) (sinhRatio_under_two (by norm_num) (by norm_num)),
      FixedInner_over 2 (by norm_num) (sinhRatio_over_two (by norm_num))]
  rw [FixedOuter_of_Next 5 h3]
  have h4 : FixedInner realMath (sinhRatio 2) (10 * 0.2 * 0.2 * 0.2) 5
      (1 + 10 * 0.2 * 0.2 + 10 * 0.2 * 0.2) = some (Flow.Return 1.96) := by
    rw [FixedInner_under 4 (by norm_num) (sinhRatio_under_two (by norm_num) (by norm_num)),
      FixedInner_hit 3 (by norm_num)]
    · norm_num
    · have e : (1 : ℝ) + 10 * 0.2 * 0.2 + 10 * 0.2 * 0.2 + 10 * 0.2 * 0.2 * 0.2
          + 10 * 0.2 * 0.2 * 0.2 = 1.96 := by norm_num
      rw [e]
      exact sinhRatio_near_two
  exact FixedOuter_of_Return 4 h4

/-! ## The catenary through two anchors -/

/-- The identities that put a catenary of length `L` through two anchors `H` apart
horizontally and `v` apart vertically. -/
theorem catenary_scale {H L v Z : ℝ} (hH : 0 < H) (hZ : 0 < Z) (hv : |v| < L)
    (hroot : sinh Z / Z = sqrt (L ^ 2 - v ^ 2) / H) :
    H / (2 * Z) * sinh Z * cosh (log ((L + v) / (L - v)) / 2) = L / 2
    ∧ H / (2 * Z) * sinh Z * sinh (log ((L + v) / (L - v)) / 2) = v / 2 := by
  obtain ⟨hv1, hv2⟩ := abs_lt.mp hv
  have hm : 0 < L - v := by linarith
  have hp : 0 < L + v := by linarith
  have hr : 0 < (L + v) / (L - v) := div_pos hp hm
  set q := exp (log ((L + v) / (L - v)) / 2) with hq
  have hqpos : 0 < q := exp_pos _
  have hqq : q * q = (L + v) / (L - v) := by
    rw [hq, ← exp_add, add_halves, exp_log hr]
  have hqinv : exp (-(log ((L + v) / (L - v)) / 2)) = q⁻¹ := by rw [exp_neg]
  have hqm : q * q * (L - v) = L + v := by rw [hqq]; field_simp
  have hD : sqrt (L ^ 2 - v ^ 2) = q * (L - v) := by
    have : L ^ 2 - v ^ 2 = (q * (L - v)) ^ 2 := by nlinarith
    rw [this, sqrt_sq (by positivity)]
  have hA : H / (2 * Z) * sinh Z = q * (L - v) / 2 := by
    have : H / (2 * Z) * sinh Z = H * (sinh Z / Z) / 2 := by field_simp; ring
    rw [this, hroot, hD]; field_simp
  rw [hA, cosh_eq, sinh_eq, hqinv]
  constructor
  · field_simp
    nlinarith
  · field_simp
    nlinarith

theorem catenary_anchors {H L v Z z₀ z₁ : ℝ} (hH : 0 < H) (hZ : 0 < Z) (hv : |v| < L)
    (hroot : sinh Z / Z = sqrt (L ^ 2 - v ^ 2) / H) (hz : v = z₁ - z₀) :
    H / (2 * Z) * cosh ((0 * H
        - (H - H / (2 * Z) * log ((L + v) / (L - v))) / 2) / (H / (2 * Z)))
      + (z₁ + z₀ - L * cosh Z / sinh Z) / 2 = z₀
    ∧ H / (2 * Z) * cosh ((1 * H
        - (H - H / (2 * Z) * log ((L + v) / (L - v))) / 2) / (H / (2 * Z)))
      + (z₁ + z₀ - L * cosh Z / sinh Z) / 2 = z₁ := by
  obtain ⟨hc, hs⟩ := catenary_scale hH hZ hv hroot
  have hsZ : 0 < sinh Z := sinh_pos_iff.mpr hZ
  have e0 : (0 * H - (H - H / (2 * Z) * log ((L + v) / (L - v))) / 2) / (H / (2 * Z))
      = -(Z - log ((L + v) / (L - v)) / 2) := by
    field_simp; ring
  have e1 : (1 * H - (H - H / (2 * Z) * log ((L + v) / (L - v))) / 2) / (H / (2 * Z))
      = Z + log ((L + v) / (L - v)) / 2 := by
    field_simp; ring
  rw [e0, e1, cosh_neg, cosh_sub, cosh_add]
  generalize log ((L + v) / (L - v)) / 2 = w at hc hs
  generalize H / (2 * Z) = A at hc hs
  have hcc : A * cosh Z * cosh w = L * cosh Z / sinh Z / 2 := by
    have : A * cosh Z * cosh w = (A * sinh Z * cosh w) * cosh Z / sinh Z := by
      field_simp; ring
    rw [this, hc]; ring
  constructor
  · have : A * (cosh Z * cosh w - sinh Z * sinh w) = A * cosh Z * cosh w - A * sinh Z * sinh w := by
      ring
    rw [this, hcc, hs, hz]; ring
  · have : A * (cosh Z * cosh w + sinh Z * sinh w) = A * cosh Z * cosh w + A * sinh Z * sinh w := by
      ring
    rw [this, hcc, hs, hz]; ring

theorem catenary_mid_lt {H L Z z₀ : ℝ} (hH : 0 < H) (hZ : 0 < Z) (hL : H < L) :
    H / (2 * Z) * cosh ((1 / 2 * H
        - (H - H / (2 * Z) * log ((L + 0) / (L - 0))) / 2) / (H / (2 * Z)))
      + (z₀ + z₀ - L * cosh Z / sinh Z) / 2 < z₀ := by
  have hsZ : 0 < sinh Z := sinh_pos_iff.mpr hZ
  have hL0 : L ≠ 0 := by linarith
  have e : (1 / 2 * H - (H - H / (2 * Z) * log ((L + 0) / (L - 0))) / 2) / (H / (2 * Z)) = 0 := by
    rw [add_zero, sub_zero, div_self hL0, log_one, mul_zero, sub_zero]
    have : 1 / 2 * H - H / 2 = 0 := by ring
    rw [this, zero_div]
  rw [e, cosh_zero, mul_one]
  have h1 := sinh_lt_mul_cosh hZ
  have key : H / (2 * Z) < L * cosh Z / sinh Z / 2 := by
    have hcp := cosh_pos Z
    rw [div_div, div_lt_div_iff₀ (by positivity) (by positivity)]
    nlinarith [mul_pos hH hsZ, mul_pos hZ hcp, mul_pos (sub_pos.mpr hL) hsZ,
      mul_pos (mul_pos (lt_trans hH hL) hZ) hcp,
      mul_lt_mul_of_pos_left h1 (lt_trans hH hL)]
  linarith

end Analysis

/-! ## The solvers: claims -/

section Solvers

open Real Set

theorem FindParameterFixed_ge_one (R : ℝ) :
    ∃ Z, FindParameterFixed realMath R = some Z ∧ 1 ≤ Z
      ∧ (|sinhRatio Z - R| < 0.05 ∨ Z = 1 ∨ sinhRatio Z ≤ R) :=
  FixedOuter_inv R 8 10 1 (by norm_num) le_rfl (Or.inl rfl)

/-- C7: for every target ratio `R > 1`, both `FindParameterNewton` and `FindParameterFixed`
run without a division by zero (neither by `Z`, nor by `Z * Z`, nor by the derivative) and
return a strictly positive `Z`. -/
theorem FindParameter_pos (R : ℝ) (hR : 1 < R) :
    (∃ Z, FindParameterNewton realMath R = some Z ∧ 0 < Z)
    ∧ (∃ Z, FindParameterFixed realMath R = some Z ∧ 0 < Z) := by
  refine ⟨NewtonLoop_pos hR 8 1 one_pos, ?_⟩
  obtain ⟨Z, hZ, h1, -⟩ := FindParameterFixed_ge_one R
  exact ⟨Z, hZ, by linarith⟩

/-- Witness of C7: the target ratio `2`. -/
theorem FindParameter_pos_witness :
    (1 : ℝ) < 2
    ∧ (∃ Z, FindParameterNewton realMath 2 = some Z ∧ 0 < Z)
    ∧ (∃ Z, FindParameterFixed realMath 2 = some Z ∧ 0 < Z) :=
  ⟨by norm_num, FindParameter_pos 2 (by norm_num)⟩

/-- C9 (counterexample): for the target ratio `1.1` the fixed-step solver returns its
initial guess `1`, whose ratio `sinh 1` is neither within `0.05` of the target nor at most
the target. -/
theorem FindParameterFixed_bracket_counterexample :
    (1 : ℝ) < 1.1
    ∧ FindParameterFixed realMath 1.1 = some 1
    ∧ ¬ (|Real.sinh 1 / 1 - 1.1| < 0.05 ∨ Real.sinh 1 / 1 ≤ 1.1) := by
  obtain ⟨h1, -, -, -⟩ := sinh_cosh_one_bounds
  refine ⟨by norm_num, FindParameterFixed_stuck (by linarith), ?_⟩
  rw [div_one, abs_of_nonneg (by linarith)]
  push_neg
  constructor <;> linarith

/-- C9 (amended): for every target ratio `R > sinh 1 - 0.05`, `FindParameterFixed` returns
a `Z` such that either `|sinh Z / Z - R| < 0.05` or `sinh Z / Z ≤ R`. -/
theorem FindParameterFixed_bracket (R : ℝ) (hR : Real.sinh 1 - 0.05 < R) :
    ∃ Z, FindParameterFixed realMath R = some Z
      ∧ (|Real.sinh Z / Z - R| < 0.05 ∨ Real.sinh Z / Z ≤ R) := by
  obtain ⟨Z, hZ, -, h⟩ := FindParameterFixed_ge_one R
  refine ⟨Z, hZ, ?_⟩
  rcases h with h | h | h
  · exact Or.inl h
  · subst h
    rw [div_one]
    rcases le_or_lt (Real.sinh 1) R with hle | hlt
    · exact Or.inr hle
    · refine Or.inl ?_
      rw [abs_of_pos (by linarith)]
      linarith
  · exact Or.inr h

/-- Witness of C9 (amended): the target ratio `sinh 2 / 2` of the specification, for which
the solver returns `1.96`, within `0.05` in ratio. -/
theorem FindParameterFixed_bracket_witness :
    Real.sinh 1 - 0.05 < Real.sinh 2 / 2
    ∧ (∃ Z, FindParameterFixed realMath (Real.sinh 2 / 2) = some Z
        ∧ (|Real.sinh Z / Z - Real.sinh 2 / 2| < 0.05 ∨ Real.sinh Z / Z ≤ Real.sinh 2 / 2))
    ∧ FindParameterFixed realMath (Real.sinh 2 / 2) = some 1.96
    ∧ |Real.sinh 1.96 / 1.96 - Real.sinh 2 / 2| < 0.05 := by
  have hR : Real.sinh 1 - 0.05 < Real.sinh 2 / 2 := by
    obtain ⟨-, h2, -, -⟩ := sinh_cosh_one_bounds
    obtain ⟨k1, -, -, -⟩ := sinh_cosh_two_bounds
    linarith
  exact ⟨hR, FindParameterFixed_bracket _ hR, FindParameterFixed_sinh_two, sinhRatio_near_two⟩

end Solvers

/-! ## The curve samplers: claims -/

section Samplers

open Real Set

/-- With a positive shape parameter, a non-zero horizontal distance, a wire longer than the
height difference and a step count other than one, the shared sampling code divides by no
zero and produces one point per step. -/
theorem CatenaryPoints_eq (S E : FVector ℝ) {H L v Z : ℝ} (Steps : Nat)
    (hH : H ≠ 0) (hZ : 0 < Z) (hm : L - v ≠ 0) (hr : 0 < (L + v) / (L - v))
    (hSteps : Steps ≠ 1) :
    CatenaryPoints realMath S E H L v Z Steps = some ((List.range Steps).map fun (i : Nat) =>
      (⟨Lerp S.X E.X ((i : ℝ) / (((Steps : Int) - 1 : Int) : ℝ)),
        Lerp S.Y E.Y ((i : ℝ) / (((Steps : Int) - 1 : Int) : ℝ)),
        H / (2 * Z) * Real.cosh (((i : ℝ) / (((Steps : Int) - 1 : Int) : ℝ) * H
            - (H - H / (2 * Z) * Real.log ((L + v) / (L - v))) / 2) / (H / (2 * Z)))
          + (E.Z + S.Z - L * Real.cosh Z / Real.sinh Z) / 2⟩ : FVector ℝ)) := by
  have h2Z : 2 * Z ≠ 0 := by positivity
  have hs : Real.sinh Z ≠ 0 := (sinh_pos_iff.mpr hZ).ne'
  have hA : H / (2 * Z) ≠ 0 := div_ne_zero hH h2Z
  have hst : ((((Steps : Int) - 1 : Int) : ℝ)) ≠ 0 := by
    have : ((Steps : Int) - 1 : Int) ≠ 0 := by omega
    exact_mod_cast this
  simp only [CatenaryPoints, realMath, flog, fdiv_of_ne _ h2Z, fdiv_of_ne _ hm, fdiv_of_ne _ hs,
    if_pos hr, Option.bind_eq_bind, Option.some_bind]
  refine mapM_eq_some_map _ _ _ fun i _ => ?_
  simp only [fdiv_of_ne _ hst, fdiv_of_ne _ hA, Option.bind_eq_bind, Option.some_bind]
  rfl

theorem abs_HeightDiff_le_Dist (S E : FVector ℝ) : |E.Z - S.Z| ≤ FVector.Dist realMath S E := by
  simp only [FVector.Dist, realMath]
  refine Real.abs_le_sqrt ?_
  nlinarith [mul_self_nonneg (E.X - S.X), mul_self_nonneg (E.Y - S.Y)]

/-- C6: with a positive horizontal distance, a wire longer than the distance of the anchors,
at least two steps and a positive shape parameter `Z` that solves
`sinh Z / Z = sqrt (L² - HeightDiff²) / HorizontalDistance` exactly, the sampling code of
`CreateCatenaryNewton` and `CreateCatenaryFixed` divides by no zero and produces `Steps`
points, the first equal to the start anchor and the last equal to the end anchor. -/
theorem CatenaryPoints_anchors (StartPoint EndPoint : FVector ℝ) (WireLength Z : ℝ)
    (Steps : Nat)
    (hH : 0 < FVector.Dist realMath ⟨EndPoint.X, EndPoint.Y, StartPoint.Z⟩ StartPoint)
    (hL : FVector.Dist realMath StartPoint EndPoint < WireLength)
    (hSteps : 2 ≤ Steps) (hZ : 0 < Z)
    (hroot : Real.sinh Z / Z
      = Real.sqrt (WireLength ^ 2 - (EndPoint.Z - StartPoint.Z) ^ 2)
        / FVector.Dist realMath ⟨EndPoint.X, EndPoint.Y, StartPoint.Z⟩ StartPoint) :
    ∃ Points, CatenaryPoints realMath StartPoint EndPoint
          (FVector.Dist realMath ⟨EndPoint.X, EndPoint.Y, StartPoint.Z⟩ StartPoint)
          WireLength (EndPoint.Z - StartPoint.Z) Z Steps = some Points
      ∧ Points.length = Steps
      ∧ Points[0]? = some StartPoint
      ∧ Points[Steps - 1]? = some EndPoint := by
  have hv : |EndPoint.Z - StartPoint.Z| < WireLength :=
    lt_of_le_of_lt (abs_HeightDiff_le_Dist StartPoint EndPoint) hL
  obtain ⟨hv1, hv2⟩ := abs_lt.mp hv
  have hm : 0 < WireLength - (EndPoint.Z - StartPoint.Z) := by linarith
  have hp : 0 < WireLength + (EndPoint.Z - StartPoint.Z) := by linarith
  obtain ⟨h0, h1⟩ := catenary_anchors hH hZ hv hroot rfl
  refine ⟨_, CatenaryPoints_eq StartPoint EndPoint Steps hH.ne' hZ hm.ne' (div_pos hp hm)
    (by omega), by simp, ?_, ?_⟩
  · rw [List.getElem?_map, List.getElem?_range (by omega)]
    rw [zero_mul] at h0
    simp only [Option.map_some', Nat.cast_zero, zero_div, Lerp, zero_mul, add_zero, h0]
  · have hT : (((Steps - 1 : Nat) : ℝ)) / (((Steps : Int) - 1 : Int) : ℝ) = 1 := by
      have hne : (((Steps : Int) - 1 : Int) : ℝ) ≠ 0 := by
        have : ((Steps : Int) - 1 : Int) ≠ 0 := by omega
        exact_mod_cast this
      rw [div_eq_one_iff_eq hne]
      have : ((Steps - 1 : Nat) : Int) = (Steps : Int) - 1 := by omega
      exact_mod_cast congrArg (fun k : Int => (k : ℝ)) this
    rw [List.getElem?_map, List.getElem?_range (by omega)]
    rw [one_mul] at h1
    simp only [Option.map_some', hT, Lerp, one_mul, add_sub_cancel, h1]

/-- For an odd step count of at least 3, the sample of index `(Steps - 1) / 2` has
parameter `T = 1 / 2`. -/
theorem mid_parameter_eq_half {Steps : Nat} (hodd : Steps % 2 = 1) (hSteps : 3 ≤ Steps) :
    ((((Steps - 1) / 2 : Nat) : ℝ)) / (((Steps : Int) - 1 : Int) : ℝ) = 1 / 2 := by
  obtain ⟨k, hk⟩ : ∃ k : Nat, Steps = 2 * k + 1 := ⟨Steps / 2, by omega⟩
  have hk1 : 1 ≤ k := by omega
  have e1 : (Steps - 1) / 2 = k := by omega
  have e2 : ((Steps : Int) - 1 : Int) = 2 * (k : Int) := by omega
  rw [e1, e2]
  have hkpos : (0 : ℝ) < (k : ℝ) := by exact_mod_cast hk1
  push_cast
  field_simp
  ring

/-- C10: on a level span (`StartPoint.Z = EndPoint.Z`) with positive horizontal distance `H`,
a wire longer than `H`, an odd step count of at least 3 and any positive shape parameter,
the sampling code of `CreateCatenaryNewton` and `CreateCatenaryFixed` divides by no zero and
its middle sample, of index `(Steps - 1) / 2`, lies strictly below the anchors. -/
theorem CatenaryPoints_mid_below (StartPoint EndPoint : FVector ℝ) (WireLength Z : ℝ)
    (Steps : Nat) (hlevel : StartPoint.Z = EndPoint.Z)
    (hH : 0 < FVector.Dist realMath ⟨EndPoint.X, EndPoint.Y, StartPoint.Z⟩ StartPoint)
    (hL : FVector.Dist realMath ⟨EndPoint.X, EndPoint.Y, StartPoint.Z⟩ StartPoint < WireLength)
    (hodd : Steps % 2 = 1) (hSteps : 3 ≤ Steps) (hZ : 0 < Z) :
    ∃ Points, CatenaryPoints realMath StartPoint EndPoint
          (FVector.Dist realMath ⟨EndPoint.X, EndPoint.Y, StartPoint.Z⟩ StartPoint)
          WireLength (EndPoint.Z - StartPoint.Z) Z Steps = some Points
      ∧ ∃ Mid, Points[(Steps - 1) / 2]? = some Mid ∧ Mid.Z < StartPoint.Z := by
  have hL0 : 0 < WireLength := lt_trans hH hL
  have hv : EndPoint.Z - StartPoint.Z = 0 := by rw [hlevel]; ring
  have hT := mid_parameter_eq_half hodd hSteps
  rw [hv]
  have hpts := CatenaryPoints_eq StartPoint EndPoint Steps hH.ne' hZ
    (by linarith : WireLength - 0 ≠ 0)
    (by rw [add_zero, sub_zero, div_self hL0.ne']; exact one_pos) (by omega : Steps ≠ 1)
  refine ⟨_, hpts, ?_⟩
  rw [List.getElem?_map, List.getElem?_range (by omega)]
  refine ⟨_, rfl, ?_⟩
  simp only [hT, ← hlevel]
  exact catenary_mid_lt hH hZ hL

theorem Dist_along_X (a b : ℝ) : FVector.Dist realMath ⟨a, 0, 0⟩ ⟨b, 0, 0⟩ = |b - a| := by
  simp only [FVector.Dist, realMath, sub_self, mul_zero, add_zero]
  exact Real.sqrt_mul_self_eq_abs _

/-- Witness of C6: anchors `(0,0,0)` and `(1,0,0)`, wire length `sinh 1`, shape parameter
`1`, ten steps. -/
theorem CatenaryPoints_anchors_witness :
    FVector.Dist realMath ⟨0, 0, 0⟩ ⟨1, 0, 0⟩ < Real.sinh 1
    ∧ ∃ Points, CatenaryPoints realMath ⟨0, 0, 0⟩ ⟨1, 0, 0⟩
          (FVector.Dist realMath ⟨1, 0, 0⟩ ⟨0, 0, 0⟩) (Real.sinh 1) (0 - 0) 1 10 = some Points
      ∧ Points.length = 10
      ∧ Points[0]? = some ⟨0, 0, 0⟩
      ∧ Points[10 - 1]? = some ⟨1, 0, 0⟩ := by
  have hs : (1 : ℝ) < Real.sinh 1 := Real.self_lt_sinh_iff.mpr one_pos
  have hd : FVector.Dist realMath ⟨0, 0, 0⟩ ⟨1, 0, 0⟩ = 1 := by
    rw [Dist_along_X]; norm_num
  have hh : FVector.Dist realMath ⟨1, 0, 0⟩ ⟨0, 0, 0⟩ = 1 := by
    rw [Dist_along_X]; norm_num
  refine ⟨by rw [hd]; exact hs, ?_⟩
  refine CatenaryPoints_anchors ⟨0, 0, 0⟩ ⟨1, 0, 0⟩ (Real.sinh 1) 1 10 ?_ ?_ (by norm_num)
    one_pos ?_
  · show 0 < FVector.Dist realMath ⟨1, 0, 0⟩ ⟨0, 0, 0⟩
    rw [hh]; exact one_pos
  · rw [hd]; exact hs
  · show Real.sinh 1 / 1 = Real.sqrt (Real.sinh 1 ^ 2 - (0 - 0) ^ 2)
      / FVector.Dist realMath ⟨1, 0, 0⟩ ⟨0, 0, 0⟩
    rw [hh, sub_zero, zero_pow two_ne_zero, sub_zero, Real.sqrt_sq (by linarith)]

/-- Witness of C10: a level span of 1000 units with a wire of 1100 units, shape parameter
`1`, eleven steps. -/
theorem CatenaryPoints_mid_below_witness :
    ∃ Points, CatenaryPoints realMath ⟨0, 0, 0⟩ ⟨1000, 0, 0⟩
          (FVector.Dist realMath ⟨1000, 0, 0⟩ ⟨0, 0, 0⟩) 1100 (0 - 0) 1 11 = some Points
      ∧ ∃ Mid, Points[(11 - 1) / 2]? = some Mid ∧ Mid.Z < 0 := by
  have hh : FVector.Dist realMath ⟨1000, 0, 0⟩ ⟨0, 0, 0⟩ = 1000 := by
    rw [Dist_along_X]; norm_num
  refine CatenaryPoints_mid_below ⟨0, 0, 0⟩ ⟨1000, 0, 0⟩ 1100 1 11 rfl ?_ ?_ (by norm_num)
    (by norm_num) one_pos
  · show 0 < FVector.Dist realMath ⟨1000, 0, 0⟩ ⟨0, 0, 0⟩
    rw [hh]; norm_num
  · show FVector.Dist realMath ⟨1000, 0, 0⟩ ⟨0, 0, 0⟩ < 1100
    rw [hh]; norm_num

/-- With a positive horizontal distance and a positive effective slack,
`CreateCatenaryFixed` reaches its sampling code with a shape parameter of at least one. -/
theorem CreateCatenaryFixed_eq (MIN_SLACK Slack : ℝ) (S E : FVector ℝ) (Steps : Nat)
    (hH : 0 < FVector.Dist realMath ⟨E.X, E.Y, S.Z⟩ S) (hslack : 0 < max MIN_SLACK Slack) :
    ∃ Z, 1 ≤ Z
      ∧ FindParameterFixed realMath
          (Real.sqrt ((FVector.Dist realMath S E + max MIN_SLACK Slack) ^ 2 - (E.Z - S.Z) ^ 2)
            / FVector.Dist realMath ⟨E.X, E.Y, S.Z⟩ S) = some Z
      ∧ CreateCatenaryFixed realMath MIN_SLACK S E Slack Steps
        = CatenaryPoints realMath S E (FVector.Dist realMath ⟨E.X, E.Y, S.Z⟩ S)
            (FVector.Dist realMath S E + max MIN_SLACK Slack) (E.Z - S.Z) Z Steps := by
  have hv := abs_HeightDiff_le_Dist S E
  have hsq : ¬ (FVector.Dist realMath S E + max MIN_SLACK Slack) ^ 2 - (E.Z - S.Z) ^ 2 < 0 := by
    have h1 : |E.Z - S.Z| < FVector.Dist realMath S E + max MIN_SLACK Slack := by linarith
    have h2 := sq_lt_sq'  (abs_lt.mp h1).1 (abs_lt.mp h1).2
    linarith
  obtain ⟨Z, hZ, h1, -⟩ := FindParameterFixed_ge_one
    (Real.sqrt ((FVector.Dist realMath S E + max MIN_SLACK Slack) ^ 2 - (E.Z - S.Z) ^ 2)
      / FVector.Dist realMath ⟨E.X, E.Y, S.Z⟩ S)
  refine ⟨Z, h1, hZ, ?_⟩
  have hsqrt : fsqrt realMath
      ((FVector.Dist realMath S E + max MIN_SLACK Slack) ^ 2 - (E.Z - S.Z) ^ 2)
      = some (Real.sqrt
        ((FVector.Dist realMath S E + max MIN_SLACK Slack) ^ 2 - (E.Z - S.Z) ^ 2)) := by
    simp only [fsqrt, if_neg hsq]
    rfl
  simp only [CreateCatenaryFixed, hsqrt, fdiv_of_ne _ hH.ne', hZ, Option.bind_eq_bind,
    Option.some_bind]

/-- C5 (the code at the failing input): for the anchors `(0,0,0)` and `(10,0,0)`, which are
10 units apart, slack 100 and 10 steps, `CreateCatenaryFixed` returns 10 points, not the
empty sequence, whatever the constant `MIN_SLACK`. -/
theorem CreateCatenaryFixed_near_not_empty (MIN_SLACK : ℝ) :
    FVector.Dist realMath ⟨0, 0, 0⟩ ⟨10, 0, 0⟩ < 20
    ∧ ∃ Points, CreateCatenaryFixed realMath MIN_SLACK ⟨0, 0, 0⟩ ⟨10, 0, 0⟩ 100 10
          = some Points
      ∧ Points.length = 10 := by
  have hd : FVector.Dist realMath ⟨0, 0, 0⟩ ⟨10, 0, 0⟩ = 10 := by
    rw [Dist_along_X]; norm_num
  have hh : FVector.Dist realMath ⟨10, 0, 0⟩ ⟨0, 0, 0⟩ = 10 := by
    rw [Dist_along_X]; norm_num
  have hslack : (0 : ℝ) < max MIN_SLACK 100 := lt_of_lt_of_le (by norm_num) (le_max_right _ _)
  refine ⟨by rw [hd]; norm_num, ?_⟩
  obtain ⟨Z, hZ, -, heq⟩ := CreateCatenaryFixed_eq MIN_SLACK 100 ⟨0, 0, 0⟩ ⟨10, 0, 0⟩ 10
    (by show 0 < FVector.Dist realMath ⟨10, 0, 0⟩ ⟨0, 0, 0⟩; rw [hh]; norm_num) hslack
  have hL : (0 : ℝ) < FVector.Dist realMath ⟨0, 0, 0⟩ ⟨10, 0, 0⟩ + max MIN_SLACK 100 := by
    rw [hd]; linarith
  have hpts := @CatenaryPoints_eq ⟨0, 0, 0⟩ ⟨10, 0, 0⟩
    (FVector.Dist realMath ⟨10, 0, 0⟩ ⟨0, 0, 0⟩)
    (FVector.Dist realMath ⟨0, 0, 0⟩ ⟨10, 0, 0⟩ + max MIN_SLACK 100) (0 - 0) Z 10
    (by rw [hh]; norm_num) (by linarith) (by rw [sub_zero, sub_zero]; exact hL.ne')
    (by rw [sub_zero, add_zero, sub_zero, div_self hL.ne']; exact one_pos) (by norm_num)
  rw [heq]
  exact ⟨_, hpts, by simp⟩

/-! ### The samplers as a whole -/

theorem Dist_nonneg (S E : FVector ℝ) : 0 ≤ FVector.Dist realMath S E :=
  Real.sqrt_nonneg _

/-- The distance of the anchors splits into the horizontal distance and the height
difference. -/
theorem Dist_sq_eq (S E : FVector ℝ) :
    FVector.Dist realMath S E ^ 2
      = FVector.Dist realMath ⟨E.X, E.Y, S.Z⟩ S ^ 2 + (E.Z - S.Z) ^ 2 := by
  simp only [FVector.Dist, realMath]
  rw [Real.sq_sqrt (by
      nlinarith [mul_self_nonneg (E.X - S.X), mul_self_nonneg (E.Y - S.Y),
        mul_self_nonneg (E.Z - S.Z)]),
    Real.sq_sqrt (by
      nlinarith [mul_self_nonneg (S.X - E.X), mul_self_nonneg (S.Y - E.Y),
        mul_self_nonneg (S.Z - S.Z)])]
  ring

/-- A wire longer than the distance of the anchors gives a target ratio above one. -/
theorem TargetRatio_gt_one (S E : FVector ℝ) {L : ℝ}
    (hH : 0 < FVector.Dist realMath ⟨E.X, E.Y, S.Z⟩ S) (hL : FVector.Dist realMath S E < L) :
    1 < Real.sqrt (L ^ 2 - (E.Z - S.Z) ^ 2) / FVector.Dist realMath ⟨E.X, E.Y, S.Z⟩ S := by
  have h0 := Dist_nonneg S E
  have hsq := Dist_sq_eq S E
  have hlt : FVector.Dist realMath S E ^ 2 < L ^ 2 := by nlinarith
  rw [one_lt_div hH, Real.lt_sqrt hH.le]
  linarith

/-- With anchors that are not near, a positive horizontal distance and a positive effective
slack, `CreateCatenaryNewton` reaches its sampling code with a positive shape parameter. -/
theorem CreateCatenaryNewton_eq (MIN_SLACK : ℝ) (FRandRange : ℝ → ℝ → ℝ) (S E : FVector ℝ)
    (Slack SlackVariation : ℝ) (Steps : Nat)
    (hfar : FVector.PointsAreNear S E 20 = false)
    (hH : 0 < FVector.Dist realMath ⟨E.X, E.Y, S.Z⟩ S)
    (hslack : 0 < max MIN_SLACK (Slack + FRandRange 0 SlackVariation)) :
    ∃ Z, 0 < Z
      ∧ FindParameterNewton realMath
          (Real.sqrt ((FVector.Dist realMath S E
              + max MIN_SLACK (Slack + FRandRange 0 SlackVariation)) ^ 2 - (E.Z - S.Z) ^ 2)
            / FVector.Dist realMath ⟨E.X, E.Y, S.Z⟩ S) = some Z
      ∧ CreateCatenaryNewton realMath MIN_SLACK FRandRange S E Slack SlackVariation Steps
        = CatenaryPoints realMath S E (FVector.Dist realMath ⟨E.X, E.Y, S.Z⟩ S)
            (FVector.Dist realMath S E + max MIN_SLACK (Slack + FRandRange 0 SlackVariation))
            (E.Z - S.Z) Z Steps := by
  have hv := abs_HeightDiff_le_Dist S E
  have hL : FVector.Dist realMath S E
      < FVector.Dist realMath S E + max MIN_SLACK (Slack + FRandRange 0 SlackVariation) := by
    linarith
  have hsq : ¬ (FVector.Dist realMath S E
      + max MIN_SLACK (Slack + FRandRange 0 SlackVariation)) ^ 2 - (E.Z - S.Z) ^ 2 < 0 := by
    have h1 : |E.Z - S.Z| < FVector.Dist realMath S E
        + max MIN_SLACK (Slack + FRandRange 0 SlackVariation) := by linarith
    have h2 := sq_lt_sq' (abs_lt.mp h1).1 (abs_lt.mp h1).2
    linarith
  obtain ⟨Z, hZ, hpos⟩ := NewtonLoop_pos (TargetRatio_gt_one S E hH hL) 8 1 one_pos
  refine ⟨Z, hpos, hZ, ?_⟩
  have hsqrt : fsqrt realMath ((FVector.Dist realMath S E
        + max MIN_SLACK (Slack + FRandRange 0 SlackVariation)) ^ 2 - (E.Z - S.Z) ^ 2)
      = some (Real.sqrt ((FVector.Dist realMath S E
        + max MIN_SLACK (Slack + FRandRange 0 SlackVariation)) ^ 2 - (E.Z - S.Z) ^ 2)) := by
    simp only [fsqrt, if_neg hsq]
    rfl
  have hZ' : FindParameterNewton realMath
      (Real.sqrt ((FVector.Dist realMath S E
          + max MIN_SLACK (Slack + FRandRange 0 SlackVariation)) ^ 2 - (E.Z - S.Z) ^ 2)
        / FVector.Dist realMath ⟨E.X, E.Y, S.Z⟩ S) = some Z := hZ
  simp only [CreateCatenaryNewton, hfar, hsqrt, fdiv_of_ne _ hH.ne', hZ', Option.bind_eq_bind,
    Option.some_bind, Bool.false_eq_true, if_false]

/-- The middle sample of the shared sampling code on a level span lies below the anchors. -/
theorem CatenaryPoints_level_mid (S E : FVector ℝ) {L Z : ℝ} {Steps : Nat}
    (hlevel : S.Z = E.Z) (hH : 0 < FVector.Dist realMath ⟨E.X, E.Y, S.Z⟩ S)
    (hL : FVector.Dist realMath S E < L) (hodd : Steps % 2 = 1) (hSteps : 3 ≤ Steps)
    (hZ : 0 < Z) :
    ∃ Points, CatenaryPoints realMath S E (FVector.Dist realMath ⟨E.X, E.Y, S.Z⟩ S)
          L (E.Z - S.Z) Z Steps = some Points
      ∧ ∃ Mid, Points[(Steps - 1) / 2]? = some Mid ∧ Mid.Z < S.Z := by
  have hHL : FVector.Dist realMath ⟨E.X, E.Y, S.Z⟩ S < L := by
    have h0 := Dist_nonneg S E
    have hsq := Dist_sq_eq S E
    rw [← hlevel, sub_self, zero_pow two_ne_zero, add_zero] at hsq
    have := (sq_eq_sq₀ h0 hH.le).mp hsq
    linarith
  have hL0 : 0 < L := lt_trans hH hHL
  have hv : E.Z - S.Z = 0 := by rw [hlevel]; ring
  have hT := mid_parameter_eq_half hodd hSteps
  rw [hv]
  have hpts := CatenaryPoints_eq S E Steps hH.ne' hZ
    (by linarith : L - 0 ≠ 0)
    (by rw [add_zero, sub_zero, div_self hL0.ne']; exact one_pos) (by omega : Steps ≠ 1)
  refine ⟨_, hpts, ?_⟩
  rw [List.getElem?_map, List.getElem?_range (by omega)]
  refine ⟨_, rfl, ?_⟩
  simp only [hT, ← hlevel]
  exact catenary_mid_lt hH hZ hHL

/-- The sag of C10 for `CreateCatenaryFixed` as a whole: on a level span with positive
horizontal distance and positive effective slack, the middle sample lies below the
anchors. -/
theorem CreateCatenaryFixed_mid_below (MIN_SLACK Slack : ℝ) (S E : FVector ℝ) (Steps : Nat)
    (hlevel : S.Z = E.Z) (hH : 0 < FVector.Dist realMath ⟨E.X, E.Y, S.Z⟩ S)
    (hslack : 0 < max MIN_SLACK Slack) (hodd : Steps % 2 = 1) (hSteps : 3 ≤ Steps) :
    ∃ Points, CreateCatenaryFixed realMath MIN_SLACK S E Slack Steps = some Points
      ∧ ∃ Mid, Points[(Steps - 1) / 2]? = some Mid ∧ Mid.Z < S.Z := by
  obtain ⟨Z, hZ, -, heq⟩ := CreateCatenaryFixed_eq MIN_SLACK Slack S E Steps hH hslack
  rw [heq]
  exact CatenaryPoints_level_mid S E hlevel hH (by linarith) hodd hSteps (by linarith)

/-- The sag of C10 for `CreateCatenaryNewton` as a whole, for anchors that are not near. -/
theorem CreateCatenaryNewton_mid_below (MIN_SLACK : ℝ) (FRandRange : ℝ → ℝ → ℝ)
    (S E : FVector ℝ) (Slack SlackVariation : ℝ) (Steps : Nat)
    (hfar : FVector.PointsAreNear S E 20 = false) (hlevel : S.Z = E.Z)
    (hH : 0 < FVector.Dist realMath ⟨E.X, E.Y, S.Z⟩ S)
    (hslack : 0 < max MIN_SLACK (Slack + FRandRange 0 SlackVariation))
    (hodd : Steps % 2 = 1) (hSteps : 3 ≤ Steps) :
    ∃ Points, CreateCatenaryNewton realMath MIN_SLACK FRandRange S E Slack SlackVariation
          Steps = some Points
      ∧ ∃ Mid, Points[(Steps - 1) / 2]? = some Mid ∧ Mid.Z < S.Z := by
  obtain ⟨Z, hZ, -, heq⟩ := CreateCatenaryNewton_eq MIN_SLACK FRandRange S E Slack
    SlackVariation Steps hfar hH hslack
  rw [heq]
  exact CatenaryPoints_level_mid S E hlevel hH (by linarith) hodd hSteps hZ

end Samplers

/-! ## Determinism of the samplers -/

section Determinism

variable {K : Type} [LinearOrderedField K]

/-- C11: `CreateCatenaryFixed` depends on its arguments alone (it takes no random source),
and with `SlackVariation = 0` two runs of `CreateCatenaryNewton` on the same inputs return
the same result whatever their random sources draw, as long as each draw
`FRandRange(0, 0)` lies in `[0, 0]`. -/
theorem CreateCatenary_deterministic (M : FloatMath K) (MIN_SLACK : K)
    (FRandRange₁ FRandRange₂ : K → K → K) (StartPoint EndPoint : FVector K) (Slack : K)
    (Steps : Nat)
    (h₁ : 0 ≤ FRandRange₁ 0 0 ∧ FRandRange₁ 0 0 ≤ 0)
    (h₂ : 0 ≤ FRandRange₂ 0 0 ∧ FRandRange₂ 0 0 ≤ 0) :
    CreateCatenaryNewton M MIN_SLACK FRandRange₁ StartPoint EndPoint Slack 0 Steps
        = CreateCatenaryNewton M MIN_SLACK FRandRange₂ StartPoint EndPoint Slack 0 Steps
    ∧ ∀ (StartPoint₂ EndPoint₂ : FVector K) (Slack₂ : K) (Steps₂ : Nat),
        StartPoint₂ = StartPoint → EndPoint₂ = EndPoint → Slack₂ = Slack → Steps₂ = Steps →
        CreateCatenaryFixed M MIN_SLACK StartPoint₂ EndPoint₂ Slack₂ Steps₂
          = CreateCatenaryFixed M MIN_SLACK StartPoint EndPoint Slack Steps := by
  have e₁ : FRandRange₁ 0 0 = 0 := le_antisymm h₁.2 h₁.1
  have e₂ : FRandRange₂ 0 0 = 0 := le_antisymm h₂.2 h₂.1
  refine ⟨?_, ?_⟩
  · simp only [CreateCatenaryNewton, e₁, e₂]
  · intro S₂ E₂ Slack₂ Steps₂ hS hE hSlack hSteps
    rw [hS, hE, hSlack, hSteps]

/-- Witness of C11: a source that always draws the upper end of the range and one that
always draws the lower end, on the span of the specification. -/
theorem CreateCatenary_deterministic_witness :
    CreateCatenaryNewton realMath 1 (fun _ b => b) ⟨0, 0, 0⟩ ⟨1000, 0, 0⟩ 100 0 10
        = CreateCatenaryNewton realMath 1 (fun a _ => a) ⟨0, 0, 0⟩ ⟨1000, 0, 0⟩ 100 0 10
    ∧ ∀ (StartPoint₂ EndPoint₂ : FVector ℝ) (Slack₂ : ℝ) (Steps₂ : Nat),
        StartPoint₂ = ⟨0, 0, 0⟩ → EndPoint₂ = ⟨1000, 0, 0⟩ → Slack₂ = 100 → Steps₂ = 10 →
        CreateCatenaryFixed realMath 1 StartPoint₂ EndPoint₂ Slack₂ Steps₂
          = CreateCatenaryFixed realMath 1 ⟨0, 0, 0⟩ ⟨1000, 0, 0⟩ 100 10 :=
  CreateCatenary_deterministic realMath 1 (fun _ b => b) (fun a _ => a) ⟨0, 0, 0⟩
    ⟨1000, 0, 0⟩ 100 10 ⟨le_refl _, le_refl _⟩ ⟨le_refl _, le_refl _⟩

end Determinism

/-! ## Mesh counts -/

section MeshCount

variable {K : Type} [LinearOrderedField K] [FloorRing K]

theorem TruncToInt_of_nonneg {F : K} (h : 0 ≤ F) : TruncToInt F = ⌊F⌋ := by
  simp [TruncToInt, h]

/-- The floor of a quotient by a positive number, as a count of whole multiples. -/
theorem floor_div_spec {d e : K} (hd : 0 ≤ d) (he : 0 < e) :
    0 ≤ ⌊d / e⌋ ∧ (⌊d / e⌋ : K) * e ≤ d ∧ d < ((⌊d / e⌋ : K) + 1) * e := by
  refine ⟨Int.floor_nonneg.mpr (div_nonneg hd he.le), ?_, ?_⟩
  · have := Int.floor_le (d / e)
    calc (⌊d / e⌋ : K) * e ≤ d / e * e := mul_le_mul_of_nonneg_right this he.le
      _ = d := div_mul_cancel₀ d he.ne'
  · have := Int.lt_floor_add_one (d / e)
    calc d = d / e * e := (div_mul_cancel₀ d he.ne').symm
      _ < ((⌊d / e⌋ : K) + 1) * e := mul_lt_mul_of_pos_right this he

/-- C12: with a mesh extent `e > 0`, `GetMeshesCountInSpline` (on a spline of length
`d ≥ 0`) and `GetMeshCountBewteenSplinePoints` (with `d` the absolute difference of the
distances of the two spline points) divide by no zero and return `n = ⌊d / e⌋`, which
satisfies `0 ≤ n`, `n * e ≤ d` and `d < (n + 1) * e`. -/
theorem GetMeshCount_floor (Spline : USplineComponent K) (Mesh : Option (UStaticMesh K))
    (Axis : EAxis) (Point1 Point2 : Int) (he : 0 < GetMeshLenght Mesh Axis)
    (hL : 0 ≤ Spline.GetSplineLength) :
    (∃ n : Int, GetMeshesCountInSpline Spline Mesh Axis = some n
      ∧ n = ⌊Spline.GetSplineLength / GetMeshLenght Mesh Axis⌋
      ∧ 0 ≤ n ∧ (n : K) * GetMeshLenght Mesh Axis ≤ Spline.GetSplineLength
      ∧ Spline.GetSplineLength < ((n : K) + 1) * GetMeshLenght Mesh Axis)
    ∧ (∃ n : Int, GetMeshCountBewteenSplinePoints Spline Mesh Axis Point1 Point2 = some n
      ∧ n = ⌊|Spline.GetDistanceAlongSplineAtSplinePoint Point1
          - Spline.GetDistanceAlongSplineAtSplinePoint Point2| / GetMeshLenght Mesh Axis⌋
      ∧ 0 ≤ n
      ∧ (n : K) * GetMeshLenght Mesh Axis
          ≤ |Spline.GetDistanceAlongSplineAtSplinePoint Point1
            - Spline.GetDistanceAlongSplineAtSplinePoint Point2|
      ∧ |Spline.GetDistanceAlongSplineAtSplinePoint Point1
            - Spline.GetDistanceAlongSplineAtSplinePoint Point2|
          < ((n : K) + 1) * GetMeshLenght Mesh Axis) := by
  constructor
  · obtain ⟨h1, h2, h3⟩ := floor_div_spec hL he
    refine ⟨_, ?_, rfl, h1, h2, h3⟩
    simp only [GetMeshesCountInSpline, fdiv_of_ne _ he.ne', Option.bind_eq_bind,
      Option.some_bind, TruncToInt_of_nonneg (div_nonneg hL he.le)]
    rfl
  · have hd : 0 ≤ |Spline.GetDistanceAlongSplineAtSplinePoint Point1
        - Spline.GetDistanceAlongSplineAtSplinePoint Point2| := abs_nonneg _
    obtain ⟨h1, h2, h3⟩ := floor_div_spec hd he
    refine ⟨_, ?_, rfl, h1, h2, h3⟩
    simp only [GetMeshCountBewteenSplinePoints, GetDistanceBetweenSplinePoints,
      fdiv_of_ne _ he.ne', Option.bind_eq_bind, Option.some_bind,
      TruncToInt_of_nonneg (div_nonneg hd he.le)]
    rfl

end MeshCount

/-- Witness of C12: a mesh from 0 to 300 on X, on a spline of length 1000 whose spline
points 1 and 4 lie at distances 100 and 750: three meshes fit along the spline and two
between the points. -/
theorem GetMeshCount_floor_witness :
    GetMeshesCountInSpline
        (⟨1000, fun x => ⟨⟨0, 0, 0⟩, ⟨x, 0, 0⟩, ⟨1, 1, 1⟩⟩, fun x => ⟨x, 0, 0⟩,
          fun _ => ⟨1, 0, 0⟩, fun p => if p = 1 then 100 else 750⟩ : USplineComponent ℚ)
        (some ⟨⟨⟨0, 0, 0⟩, ⟨300, 0, 0⟩⟩⟩) EAxis.X = some 3
    ∧ GetMeshCountBewteenSplinePoints
        (⟨1000, fun x => ⟨⟨0, 0, 0⟩, ⟨x, 0, 0⟩, ⟨1, 1, 1⟩⟩, fun x => ⟨x, 0, 0⟩,
          fun _ => ⟨1, 0, 0⟩, fun p => if p = 1 then 100 else 750⟩ : USplineComponent ℚ)
        (some ⟨⟨⟨0, 0, 0⟩, ⟨300, 0, 0⟩⟩⟩) EAxis.X 1 4 = some 2 := by
  have he : (0 : ℚ) < GetMeshLenght (some (⟨⟨⟨0, 0, 0⟩, ⟨300, 0, 0⟩⟩⟩ : UStaticMesh ℚ))
      EAxis.X := by
    simp [GetMeshLenght]
  obtain ⟨⟨n, hn, hfl, -, -, -⟩, ⟨m, hm, hfm, -, -, -⟩⟩ := GetMeshCount_floor
    (⟨1000, fun x => ⟨⟨0, 0, 0⟩, ⟨x, 0, 0⟩, ⟨1, 1, 1⟩⟩, fun x => ⟨x, 0, 0⟩,
      fun _ => ⟨1, 0, 0⟩, fun p => if p = 1 then 100 else 750⟩ : USplineComponent ℚ)
    (some ⟨⟨⟨0, 0, 0⟩, ⟨300, 0, 0⟩⟩⟩) EAxis.X 1 4 he (by norm_num)
  have e1 : n = 3 := by
    rw [hfl, Int.floor_eq_iff]
    simp only [GetMeshLenght]
    norm_num
  have e2 : m = 2 := by
    rw [hfm, Int.floor_eq_iff]
    simp only [GetMeshLenght]
    norm_num
  rw [e1] at hn
  rw [e2] at hm
  exact ⟨hn, hm⟩

/-! ## Tiling -/

section Tiling

variable {K : Type} [LinearOrderedField K]

/-- C17: tile `Index` of `GetSplineMeshStartAndEndByIteration` spans the arc-length interval
from `StartDistance = Index * Bound + NewStartPosition` to an `EndDistance` with
`EndDistance - StartDistance = Bound`: its positions and clamped tangents are those of the
curve at these two distances, and its end position and end tangent are the start position
and start tangent of tile `Index + 1`. -/
theorem GetSplineMeshStartAndEndByIteration_adjacent (M : FloatMath K) (Index : Int)
    (Bound : K) (Spline : USplineComponent K) (NewStartPosition : K) :
    (∃ StartDistance EndDistance : K,
      StartDistance = (Index : K) * Bound + NewStartPosition
      ∧ EndDistance - StartDistance = Bound
      ∧ (GetSplineMeshStartAndEndByIteration M Index Bound Spline NewStartPosition).StartPosition
          = Spline.GetLocationAtDistanceAlongSpline StartDistance
      ∧ (GetSplineMeshStartAndEndByIteration M Index Bound Spline NewStartPosition).StartTangent
          = (Spline.GetTangentAtDistanceAlongSpline StartDistance).GetClampedToSize M 0 Bound
      ∧ (GetSplineMeshStartAndEndByIteration M Index Bound Spline NewStartPosition).EndPosition
          = Spline.GetLocationAtDistanceAlongSpline EndDistance
      ∧ (GetSplineMeshStartAndEndByIteration M Index Bound Spline NewStartPosition).EndTangent
          = (Spline.GetTangentAtDistanceAlongSpline EndDistance).GetClampedToSize M 0 Bound)
    ∧ (GetSplineMeshStartAndEndByIteration M Index Bound Spline NewStartPosition).EndPosition
        = (GetSplineMeshStartAndEndByIteration M (Index + 1) Bound Spline
            NewStartPosition).StartPosition
    ∧ (GetSplineMeshStartAndEndByIteration M Index Bound Spline NewStartPosition).EndTangent
        = (GetSplineMeshStartAndEndByIteration M (Index + 1) Bound Spline
            NewStartPosition).StartTangent := by
  refine ⟨⟨(Index : K) * Bound + NewStartPosition,
    ((Index + 1 : Int) : K) * Bound + NewStartPosition, rfl, ?_, rfl, rfl, rfl, rfl⟩, rfl, rfl⟩
  push_cast
  ring

end Tiling

/-! ## Even spacing along a spline: orientation, spacing, zero length -/

section SamplerDetail

variable {K : Type} [LinearOrderedField K] [FloorRing K]

theorem ceil_div_pos {L d : K} (hL : 0 < L) (hd : 0 < d) :
    0 < ⌈L / d⌉ ∧ (0 : K) < (⌈L / d⌉ : K) := by
  have hn : 0 < ⌈L / d⌉ := Int.ceil_pos.mpr (div_pos hL hd)
  exact ⟨hn, by exact_mod_cast hn⟩

/-- On a curve of positive length with a positive spacing, the loop of
`GetTransformPointsAlongSpline` divides by no zero; its result is listed sample by sample. -/
theorem GetTransformPointsAlongSpline_eq (spline : USplineComponent K) (d : K)
    (bFacingUp : Bool) (hL : 0 < spline.GetSplineLength) (hd : 0 < d) :
    GetTransformPointsAlongSpline spline d bFacingUp
      = some ((List.range (⌈spline.GetSplineLength / d⌉ + 1).toNat).map fun (i : Nat) =>
          if bFacingUp then
            (⟨⟨0, (spline.GetTransformAtDistanceAlongSpline (spline.GetSplineLength
                  / (⌈spline.GetSplineLength / d⌉ : K) * (i : K))).Rotator.Yaw,
                (spline.GetTransformAtDistanceAlongSpline (spline.GetSplineLength
                  / (⌈spline.GetSplineLength / d⌉ : K) * (i : K))).Rotator.Roll⟩,
              (spline.GetTransformAtDistanceAlongSpline (spline.GetSplineLength
                  / (⌈spline.GetSplineLength / d⌉ : K) * (i : K))).GetLocation,
              ⟨1, 1, 1⟩⟩ : FTransform K)
          else spline.GetTransformAtDistanceAlongSpline (spline.GetSplineLength
                  / (⌈spline.GetSplineLength / d⌉ : K) * (i : K))) := by
  obtain ⟨-, hnK⟩ := ceil_div_pos hL hd
  simp only [GetTransformPointsAlongSpline, fdiv_of_ne _ hd.ne', fdiv_of_ne _ hnK.ne',
    bind_pure_comp, Option.bind_eq_bind, Option.some_bind]
  refine mapM_eq_some_map _ _ _ fun i _ => ?_
  cases bFacingUp <;> simp

/-- C13: on a curve of positive length with a positive spacing, sample `i` of
`GetTransformPointsAlongSpline` is taken from the curve's transform at the distance
`(L / n) * i`: with `bFacingUp` it has pitch 0, the yaw, roll and position of that transform
and scale `(1, 1, 1)`; without `bFacingUp` it is that transform. -/
theorem GetTransformPointsAlongSpline_facing (spline : USplineComponent K) (d : K)
    (bFacingUp : Bool) (hL : 0 < spline.GetSplineLength) (hd : 0 < d) :
    ∃ Points, GetTransformPointsAlongSpline spline d bFacingUp = some Points
      ∧ (Points.length : Int) = ⌈spline.GetSplineLength / d⌉ + 1
      ∧ ∀ (i : Nat) (p : FTransform K), Points[i]? = some p →
          (bFacingUp = true →
            p.Rotator.Pitch = 0
            ∧ p.Rotator.Yaw = (spline.GetTransformAtDistanceAlongSpline
                (spline.GetSplineLength / (⌈spline.GetSplineLength / d⌉ : K)
                  * (i : K))).Rotator.Yaw
            ∧ p.Rotator.Roll = (spline.GetTransformAtDistanceAlongSpline
                (spline.GetSplineLength / (⌈spline.GetSplineLength / d⌉ : K)
                  * (i : K))).Rotator.Roll
            ∧ p.Scale3D.X = 1 ∧ p.Scale3D.Y = 1 ∧ p.Scale3D.Z = 1
            ∧ p.GetLocation = (spline.GetTransformAtDistanceAlongSpline
                (spline.GetSplineLength / (⌈spline.GetSplineLength / d⌉ : K)
                  * (i : K))).GetLocation)
          ∧ (bFacingUp = false →
            p = spline.GetTransformAtDistanceAlongSpline
                (spline.GetSplineLength / (⌈spline.GetSplineLength / d⌉ : K) * (i : K))) := by
  obtain ⟨hn, -⟩ := ceil_div_pos hL hd
  refine ⟨_, GetTransformPointsAlongSpline_eq spline d bFacingUp hL hd, ?_, ?_⟩
  · rw [List.length_map, List.length_range, Int.toNat_of_nonneg (by omega)]
  · intro i p hp
    rw [List.getElem?_map] at hp
    by_cases hlt : i < (⌈spline.GetSplineLength / d⌉ + 1).toNat
    · rw [List.getElem?_range hlt, Option.map_some'] at hp
      have hp' := (Option.some.inj hp).symm
      constructor
      · intro hb
        subst hb
        rw [hp']
        simp
      · intro hb
        subst hb
        rw [hp']
        simp
    · rw [List.getElem?_eq_none (by rw [List.length_range]; omega)] at hp
      exact absurd hp (by simp)

/-- C18: on a curve of length `L > 0` with requested spacing `d > 0`, the instance count
`n = ⌈L / d⌉` of `GetTransformPointsAlongSpline` is at least 1, the spacing `L / n` it
samples with is positive and at most `d`, it equals `d` exactly when `L` is an integer
multiple of `d`, and the samples are taken at the multiples `(L / n) * i`, `i = 0, ..., n`,
of that spacing. -/
theorem GetTransformPointsAlongSpline_spacing (spline : USplineComponent K) (d : K)
    (bFacingUp : Bool) (hL : 0 < spline.GetSplineLength) (hd : 0 < d) :
    1 ≤ ⌈spline.GetSplineLength / d⌉
    ∧ 0 < spline.GetSplineLength / (⌈spline.GetSplineLength / d⌉ : K)
    ∧ spline.GetSplineLength / (⌈spline.GetSplineLength / d⌉ : K) ≤ d
    ∧ (spline.GetSplineLength / (⌈spline.GetSplineLength / d⌉ : K) = d
        ↔ ∃ k : Int, spline.GetSplineLength = (k : K) * d)
    ∧ ∃ distances : List K,
        distances = (List.range (⌈spline.GetSplineLength / d⌉ + 1).toNat).map
          (fun (i : Nat) =>
            spline.GetSplineLength / (⌈spline.GetSplineLength / d⌉ : K) * (i : K))
        ∧ GetTransformPointsAlongSpline spline d bFacingUp = some (distances.map fun x =>
            if bFacingUp then
              ⟨⟨0, (spline.GetTransformAtDistanceAlongSpline x).Rotator.Yaw,
                  (spline.GetTransformAtDistanceAlongSpline x).Rotator.Roll⟩,
                (spline.GetTransformAtDistanceAlongSpline x).GetLocation, ⟨1, 1, 1⟩⟩
            else spline.GetTransformAtDistanceAlongSpline x) := by
  obtain ⟨hn, hnK⟩ := ceil_div_pos hL hd
  have hceil : spline.GetSplineLength / d ≤ (⌈spline.GetSplineLength / d⌉ : K) :=
    Int.le_ceil _
  have hle : spline.GetSplineLength ≤ (⌈spline.GetSplineLength / d⌉ : K) * d :=
    (div_le_iff₀ hd).mp hceil
  refine ⟨by omega, div_pos hL hnK, ?_, ?_, _, rfl, ?_⟩
  · rw [div_le_iff₀ hnK, mul_comm]
    exact hle
  · constructor
    · intro h
      refine ⟨⌈spline.GetSplineLength / d⌉, ?_⟩
      rw [div_eq_iff hnK.ne'] at h
      exact h.trans (mul_comm _ _)
    · rintro ⟨k, hk⟩
      have hq : spline.GetSplineLength / d = (k : K) := by
        rw [hk, mul_div_assoc, div_self hd.ne', mul_one]
      rw [hq, Int.ceil_intCast, hk]
      have hk0 : (k : K) ≠ 0 := by
        intro h0
        rw [h0, zero_mul] at hk
        exact hL.ne' hk
      rw [mul_comm, mul_div_assoc, div_self hk0, mul_one]
  · rw [GetTransformPointsAlongSpline_eq spline d bFacingUp hL hd, List.map_map]
    rfl

/-- C15 (the code on a curve of length 0): the spacing recomputation divides the length
`0` by the instance count `0`, so the run leaves the exact arithmetic of the embedding
instead of producing the transform at distance 0, whatever the spacing. -/
theorem GetTransformPointsAlongSpline_zero_length (T : K → FTransform K)
    (P Tangent : K → FVector K) (D : Int → K) (d : K) (bFacingUp : Bool) :
    GetTransformPointsAlongSpline ⟨0, T, P, Tangent, D⟩ d bFacingUp = none := by
  by_cases hd : d = 0
  · simp [GetTransformPointsAlongSpline, hd, fdiv_zero_right]
  · have h0 : fdiv (0 : K) d = some 0 := by rw [fdiv_of_ne _ hd, zero_div]
    have hr : List.range ((0 : Int) + 1).toNat = [0] := rfl
    simp only [GetTransformPointsAlongSpline, h0, Option.bind_eq_bind, Option.some_bind,
      Int.ceil_zero, Int.cast_zero, fdiv_zero_right, Option.none_bind, hr]
    rw [List.mapM_cons]
    rfl

end SamplerDetail

/-- Witness of C13: a curve of length 1000 whose transform has pitch 30, yaw 45, roll 60 and
scale 2 everywhere, sampled every 100 units facing up. -/
theorem GetTransformPointsAlongSpline_facing_witness :
    ∃ Points, GetTransformPointsAlongSpline
          (⟨1000, fun x => ⟨⟨30, 45, 60⟩, ⟨x, 0, 0⟩, ⟨2, 2, 2⟩⟩, fun x => ⟨x, 0, 0⟩,
            fun _ => ⟨1, 0, 0⟩, fun _ => 0⟩ : USplineComponent ℚ) 100 true = some Points
      ∧ ∀ (i : Nat) (p : FTransform ℚ), Points[i]? = some p →
          p.Rotator.Pitch = 0 ∧ p.Rotator.Yaw = 45 ∧ p.Rotator.Roll = 60
          ∧ p.Scale3D.X = 1 ∧ p.Scale3D.Y = 1 ∧ p.Scale3D.Z = 1
          ∧ p.GetLocation = ⟨1000 / ((⌈(1000 : ℚ) / 100⌉ : Int) : ℚ) * (i : ℚ), 0, 0⟩ := by
  obtain ⟨Points, hres, -, h⟩ := GetTransformPointsAlongSpline_facing
    (⟨1000, fun x => ⟨⟨30, 45, 60⟩, ⟨x, 0, 0⟩, ⟨2, 2, 2⟩⟩, fun x => ⟨x, 0, 0⟩,
      fun _ => ⟨1, 0, 0⟩, fun _ => 0⟩ : USplineComponent ℚ) 100 true
    (by norm_num) (by norm_num)
  refine ⟨Points, hres, fun i p hp => ?_⟩
  obtain ⟨h1, h2, h3, h4, h5, h6, h7⟩ := (h i p hp).1 rfl
  exact ⟨h1, h2, h3, h4, h5, h6, h7⟩

/-- Witness of C18: a curve of length 1000 with requested spacing 300 is sampled with 4
instances at spacing 250. -/
theorem GetTransformPointsAlongSpline_spacing_witness :
    1 ≤ ⌈(1000 : ℚ) / 300⌉
    ∧ (0 : ℚ) < 1000 / ((⌈(1000 : ℚ) / 300⌉ : Int) : ℚ)
    ∧ (1000 : ℚ) / ((⌈(1000 : ℚ) / 300⌉ : Int) : ℚ) ≤ 300
    ∧ ⌈(1000 : ℚ) / 300⌉ = 4 := by
  obtain ⟨h1, h2, h3, -, -⟩ := GetTransformPointsAlongSpline_spacing
    (⟨1000, fun x => ⟨⟨0, 0, 0⟩, ⟨x, 0, 0⟩, ⟨1, 1, 1⟩⟩, fun x => ⟨x, 0, 0⟩,
      fun _ => ⟨1, 0, 0⟩, fun _ => 0⟩ : USplineComponent ℚ) 300 false
    (by norm_num) (by norm_num)
  refine ⟨h1, h2, h3, ?_⟩
  rw [Int.ceil_eq_iff]
  norm_num

/-! ## The samplers: plane of the curve and solver precondition -/

section Plane

variable {K : Type} [LinearOrderedField K]

/-- A loop that succeeds produced each of its results from the element of the same index. -/
theorem mapM_eq_some_getElem? {α β : Type} (f : α → Option β) :
    ∀ (l : List α) (r : List β), l.mapM f = some r →
      r.length = l.length
      ∧ ∀ (i : Nat) (b : β), r[i]? = some b → ∃ a, l[i]? = some a ∧ f a = some b := by
  intro l
  induction l with
  | nil =>
    intro r h
    have hr : r = [] := by
      rw [List.mapM_nil] at h
      exact (Option.some.inj h).symm
    subst hr
    exact ⟨rfl, fun i b hb => absurd hb (by simp)⟩
  | cons a l ih =>
    intro r h
    rw [List.mapM_cons] at h
    rcases hfa : f a with _ | b
    · rw [hfa] at h
      exact absurd h (by simp)
    · rcases hl : l.mapM f with _ | bs
      · rw [hfa, hl] at h
        exact absurd h (by simp)
      · rw [hfa, hl] at h
        have hr : r = b :: bs := (Option.some.inj h).symm
        subst hr
        obtain ⟨hlen, hget⟩ := ih bs hl
        refine ⟨by simp [hlen], ?_⟩
        intro i c hc
        cases i with
        | zero =>
          have hbc : b = c := by simpa using hc
          exact ⟨a, by simp, by rw [← hbc]; exact hfa⟩
        | succ i =>
          have hc' : bs[i]? = some c := by simpa using hc
          obtain ⟨a', ha', hfa'⟩ := hget i c hc'
          exact ⟨a', by simpa using ha', hfa'⟩

/-- Every point that the shared sampling code returns has its `X` and `Y` interpolated
linearly between the anchors, whatever the scalar functions and the shape parameter. -/
theorem CatenaryPoints_plane (M : FloatMath K) (S E : FVector K) (H L v Z : K) (Steps : Nat)
    (Points : List (FVector K)) (h : CatenaryPoints M S E H L v Z Steps = some Points) :
    Points.length = Steps
    ∧ ∀ (i : Nat) (p : FVector K), Points[i]? = some p →
        fdiv (i : K) (((Steps : Int) - 1 : Int) : K)
            = some ((i : K) / (((Steps : Int) - 1 : Int) : K))
        ∧ p.X = S.X + (i : K) / (((Steps : Int) - 1 : Int) : K) * (E.X - S.X)
        ∧ p.Y = S.Y + (i : K) / (((Steps : Int) - 1 : Int) : K) * (E.Y - S.Y) := by
  simp only [CatenaryPoints, Option.bind_eq_bind, Option.bind_eq_some] at h
  obtain ⟨A, -, r, -, lg, -, c, -, hmap⟩ := h
  obtain ⟨hlen, hget⟩ := mapM_eq_some_getElem? _ _ _ hmap
  refine ⟨by rw [hlen, List.length_range], ?_⟩
  intro i p hp
  obtain ⟨j, hj, hbody⟩ := hget i p hp
  have hji : j = i := by
    by_cases hlt : i < Steps
    · rw [List.getElem?_range hlt] at hj
      exact (Option.some.inj hj).symm
    · rw [List.getElem?_eq_none (by rw [List.length_range]; omega)] at hj
      exact absurd hj (by simp)
  subst hji
  simp only [Option.bind_eq_bind, Option.bind_eq_some] at hbody
  obtain ⟨T, hT, u, -, hpos⟩ := hbody
  have hTeq : T = (j : K) / (((Steps : Int) - 1 : Int) : K) := by
    by_cases h0 : ((((Steps : Int) - 1 : Int) : K)) = 0
    · simp [fdiv, h0] at hT
    · rw [fdiv_of_ne _ h0] at hT
      exact (Option.some.inj hT).symm
  have hp' : p = ⟨Lerp S.X E.X T, Lerp S.Y E.Y T, A * M.Cosh u + ((E.Z + S.Z - c) / 2)⟩ :=
    (Option.some.inj hpos).symm
  rw [← hTeq]
  refine ⟨hT, ?_, ?_⟩
  · rw [hp']; rfl
  · rw [hp']; rfl

theorem CreateCatenaryFixed_plane (M : FloatMath K) (MIN_SLACK : K) (S E : FVector K)
    (Slack : K) (Steps : Nat) (Points : List (FVector K))
    (h : CreateCatenaryFixed M MIN_SLACK S E Slack Steps = some Points) :
    Points.length = Steps
    ∧ ∀ (i : Nat) (p : FVector K), Points[i]? = some p →
        fdiv (i : K) (((Steps : Int) - 1 : Int) : K)
            = some ((i : K) / (((Steps : Int) - 1 : Int) : K))
        ∧ p.X = S.X + (i : K) / (((Steps : Int) - 1 : Int) : K) * (E.X - S.X)
        ∧ p.Y = S.Y + (i : K) / (((Steps : Int) - 1 : Int) : K) * (E.Y - S.Y) := by
  simp only [CreateCatenaryFixed, Option.bind_eq_bind, Option.bind_eq_some] at h
  obtain ⟨s, -, R, -, Z, -, hpts⟩ := h
  exact CatenaryPoints_plane M S E _ _ _ Z Steps Points hpts

theorem CreateCatenaryNewton_plane (M : FloatMath K) (MIN_SLACK : K)
    (FRandRange : K → K → K) (S E : FVector K) (Slack SlackVariation : K) (Steps : Nat)
    (Points : List (FVector K)) (hfar : FVector.PointsAreNear S E 20 = false)
    (h : CreateCatenaryNewton M MIN_SLACK FRandRange S E Slack SlackVariation Steps
      = some Points) :
    Points.length = Steps
    ∧ ∀ (i : Nat) (p : FVector K), Points[i]? = some p →
        fdiv (i : K) (((Steps : Int) - 1 : Int) : K)
            = some ((i : K) / (((Steps : Int) - 1 : Int) : K))
        ∧ p.X = S.X + (i : K) / (((Steps : Int) - 1 : Int) : K) * (E.X - S.X)
        ∧ p.Y = S.Y + (i : K) / (((Steps : Int) - 1 : Int) : K) * (E.Y - S.Y) := by
  simp only [CreateCatenaryNewton, hfar, Bool.false_eq_true, if_false, Option.bind_eq_bind,
    Option.bind_eq_some] at h
  obtain ⟨s, -, R, -, Z, -, hpts⟩ := h
  exact CatenaryPoints_plane M S E _ _ _ Z Steps Points hpts

end Plane

section PlaneClaims

theorem CatenaryPoints_isSome (S E : FVector ℝ) {L Z : ℝ} (Steps : Nat)
    (hH : 0 < FVector.Dist realMath ⟨E.X, E.Y, S.Z⟩ S) (hL : FVector.Dist realMath S E < L)
    (hZ : 0 < Z) (hSteps : Steps ≠ 1) :
    ∃ Points, CatenaryPoints realMath S E (FVector.Dist realMath ⟨E.X, E.Y, S.Z⟩ S) L
      (E.Z - S.Z) Z Steps = some Points := by
  have hv : |E.Z - S.Z| < L := lt_of_le_of_lt (abs_HeightDiff_le_Dist S E) hL
  obtain ⟨hv1, hv2⟩ := abs_lt.mp hv
  have hm : 0 < L - (E.Z - S.Z) := by linarith
  have hp : 0 < L + (E.Z - S.Z) := by linarith
  exact ⟨_, CatenaryPoints_eq S E Steps hH.ne' hZ hm.ne' (div_pos hp hm) hSteps⟩

/-- C14: every point that `CreateCatenaryFixed` returns, and every point that
`CreateCatenaryNewton` returns for anchors that are not near, has
`(x, y) = start.xy + (i / (Steps - 1)) * (end.xy - start.xy)`, and there are `Steps` points;
with at least two steps, a positive horizontal distance and a positive effective slack both
samplers do return their points (no division by zero occurs). -/
theorem CreateCatenary_plane (MIN_SLACK : ℝ) (FRandRange : ℝ → ℝ → ℝ)
    (StartPoint EndPoint : FVector ℝ) (Slack SlackVariation : ℝ) (Steps : Nat)
    (hSteps : 2 ≤ Steps) :
    (∀ Points, CreateCatenaryFixed realMath MIN_SLACK StartPoint EndPoint Slack Steps
          = some Points →
        Points.length = Steps
        ∧ ∀ (i : Nat) (p : FVector ℝ), Points[i]? = some p →
            p.X = StartPoint.X + (i : ℝ) / (((Steps : Int) - 1 : Int) : ℝ)
              * (EndPoint.X - StartPoint.X)
            ∧ p.Y = StartPoint.Y + (i : ℝ) / (((Steps : Int) - 1 : Int) : ℝ)
              * (EndPoint.Y - StartPoint.Y))
    ∧ (∀ Points, FVector.PointsAreNear StartPoint EndPoint 20 = false →
        CreateCatenaryNewton realMath MIN_SLACK FRandRange StartPoint EndPoint Slack
          SlackVariation Steps = some Points →
        Points.length = Steps
        ∧ ∀ (i : Nat) (p : FVector ℝ), Points[i]? = some p →
            p.X = StartPoint.X + (i : ℝ) / (((Steps : Int) - 1 : Int) : ℝ)
              * (EndPoint.X - StartPoint.X)
            ∧ p.Y = StartPoint.Y + (i : ℝ) / (((Steps : Int) - 1 : Int) : ℝ)
              * (EndPoint.Y - StartPoint.Y))
    ∧ (0 < FVector.Dist realMath ⟨EndPoint.X, EndPoint.Y, StartPoint.Z⟩ StartPoint →
        0 < max MIN_SLACK Slack →
        ∃ Points, CreateCatenaryFixed realMath MIN_SLACK StartPoint EndPoint Slack Steps
          = some Points)
    ∧ (FVector.PointsAreNear StartPoint EndPoint 20 = false →
        0 < FVector.Dist realMath ⟨EndPoint.X, EndPoint.Y, StartPoint.Z⟩ StartPoint →
        0 < max MIN_SLACK (Slack + FRandRange 0 SlackVariation) →
        ∃ Points, CreateCatenaryNewton realMath MIN_SLACK FRandRange StartPoint EndPoint
          Slack SlackVariation Steps = some Points) := by
  refine ⟨?_, ?_, ?_, ?_⟩
  · intro Points h
    obtain ⟨hlen, hget⟩ := CreateCatenaryFixed_plane realMath MIN_SLACK StartPoint EndPoint
      Slack Steps Points h
    exact ⟨hlen, fun i p hp => (hget i p hp).2⟩
  · intro Points hfar h
    obtain ⟨hlen, hget⟩ := CreateCatenaryNewton_plane realMath MIN_SLACK FRandRange
      StartPoint EndPoint Slack SlackVariation Steps Points hfar h
    exact ⟨hlen, fun i p hp => (hget i p hp).2⟩
  · intro hH hslack
    obtain ⟨Z, hZ, -, heq⟩ := CreateCatenaryFixed_eq MIN_SLACK Slack StartPoint EndPoint
      Steps hH hslack
    rw [heq]
    exact CatenaryPoints_isSome StartPoint EndPoint Steps hH (by linarith) (by linarith)
      (by omega)
  · intro hfar hH hslack
    obtain ⟨Z, hZ, -, heq⟩ := CreateCatenaryNewton_eq MIN_SLACK FRandRange StartPoint
      EndPoint Slack SlackVariation Steps hfar hH hslack
    rw [heq]
    exact CatenaryPoints_isSome StartPoint EndPoint Steps hH (by linarith) hZ (by omega)

/-- Witness of C14: the span of the specification, from `(0,0,0)` to `(1000,0,0)` with slack
100 and 10 steps: both samplers return 10 points, the first with `x = 0` and `y = 0`, the
last with `x = 1000` and `y = 0`. -/
theorem CreateCatenary_plane_witness :
    (∃ Points, CreateCatenaryFixed realMath 1 ⟨0, 0, 0⟩ ⟨1000, 0, 0⟩ 100 10 = some Points
      ∧ Points.length = 10
      ∧ (∀ p, Points[0]? = some p → p.X = 0 ∧ p.Y = 0)
      ∧ (∀ p, Points[9]? = some p → p.X = 1000 ∧ p.Y = 0))
    ∧ (∃ Points, CreateCatenaryNewton realMath 1 (fun _ b => b) ⟨0, 0, 0⟩ ⟨1000, 0, 0⟩ 100 2 10
          = some Points
      ∧ Points.length = 10
      ∧ (∀ p, Points[0]? = some p → p.X = 0 ∧ p.Y = 0)
      ∧ (∀ p, Points[9]? = some p → p.X = 1000 ∧ p.Y = 0)) := by
  have hh : (0 : ℝ) < FVector.Dist realMath ⟨1000, 0, 0⟩ ⟨0, 0, 0⟩ := by
    rw [Dist_along_X]; norm_num
  have hfar : FVector.PointsAreNear (⟨0, 0, 0⟩ : FVector ℝ) ⟨1000, 0, 0⟩ 20 = false := by
    have h20 : |(0 : ℝ) - 1000| ≥ 20 := by
      rw [abs_of_neg (by norm_num)]; norm_num
    simp only [FVector.PointsAreNear, h20, if_true]
  have hs1 : (0 : ℝ) < max 1 100 := by norm_num
  have hs2 : (0 : ℝ) < max 1 (100 + (fun _ b => b) (0 : ℝ) (2 : ℝ)) := by norm_num
  obtain ⟨hF, hN, hFe, hNe⟩ := CreateCatenary_plane 1 (fun _ b => b) ⟨0, 0, 0⟩
    ⟨1000, 0, 0⟩ 100 2 10 (by norm_num)
  obtain ⟨PF, hPF⟩ := hFe hh hs1
  obtain ⟨PN, hPN⟩ := hNe hfar hh hs2
  obtain ⟨hFl, hFg⟩ := hF PF hPF
  obtain ⟨hNl, hNg⟩ := hN PN hfar hPN
  refine ⟨⟨PF, hPF, hFl, fun p hp => ?_, fun p hp => ?_⟩,
    ⟨PN, hPN, hNl, fun p hp => ?_, fun p hp => ?_⟩⟩
  · obtain ⟨hx, hy⟩ := hFg 0 p hp
    constructor
    · rw [hx]; norm_num
    · rw [hy]; norm_num
  · obtain ⟨hx, hy⟩ := hFg 9 p hp
    constructor
    · rw [hx]; norm_num
    · rw [hy]; norm_num
  · obtain ⟨hx, hy⟩ := hNg 0 p hp
    constructor
    · rw [hx]; norm_num
    · rw [hy]; norm_num
  · obtain ⟨hx, hy⟩ := hNg 9 p hp
    constructor
    · rw [hx]; norm_num
    · rw [hy]; norm_num

/-- C16: with a positive horizontal distance `H` and a positive constant `MIN_SLACK`, for
every slack, slack variation and random source, the wire length of either sampler is at
least `TotalDistance + MIN_SLACK`, which exceeds `|HeightDiff|`; the target ratio
`sqrt (WireLength² - HeightDiff²) / H` is strictly greater than 1; and it is this ratio
that the sampler passes to its solver (for `CreateCatenaryNewton`, unless the anchors are
near). -/
theorem CreateCatenary_precondition (MIN_SLACK : ℝ) (FRandRange : ℝ → ℝ → ℝ)
    (StartPoint EndPoint : FVector ℝ) (Slack SlackVariation : ℝ) (Steps : Nat)
    (hH : 0 < FVector.Dist realMath ⟨EndPoint.X, EndPoint.Y, StartPoint.Z⟩ StartPoint)
    (hMIN : 0 < MIN_SLACK) :
    (∃ WireLength TargetRatio : ℝ,
      WireLength = FVector.Dist realMath StartPoint EndPoint
        + max MIN_SLACK (Slack + FRandRange 0 SlackVariation)
      ∧ TargetRatio = Real.sqrt (WireLength ^ 2 - (EndPoint.Z - StartPoint.Z) ^ 2)
        / FVector.Dist realMath ⟨EndPoint.X, EndPoint.Y, StartPoint.Z⟩ StartPoint
      ∧ FVector.Dist realMath StartPoint EndPoint + MIN_SLACK ≤ WireLength
      ∧ |EndPoint.Z - StartPoint.Z| < FVector.Dist realMath StartPoint EndPoint + MIN_SLACK
      ∧ 1 < TargetRatio
      ∧ CreateCatenaryNewton realMath MIN_SLACK FRandRange StartPoint EndPoint Slack
          SlackVariation Steps
        = if FVector.PointsAreNear StartPoint EndPoint 20 then some []
          else (FindParameterNewton realMath TargetRatio).bind fun Z =>
            CatenaryPoints realMath StartPoint EndPoint
              (FVector.Dist realMath ⟨EndPoint.X, EndPoint.Y, StartPoint.Z⟩ StartPoint)
              WireLength (EndPoint.Z - StartPoint.Z) Z Steps)
    ∧ (∃ WireLength TargetRatio : ℝ,
      WireLength = FVector.Dist realMath StartPoint EndPoint + max MIN_SLACK Slack
      ∧ TargetRatio = Real.sqrt (WireLength ^ 2 - (EndPoint.Z - StartPoint.Z) ^ 2)
        / FVector.Dist realMath ⟨EndPoint.X, EndPoint.Y, StartPoint.Z⟩ StartPoint
      ∧ FVector.Dist realMath StartPoint EndPoint + MIN_SLACK ≤ WireLength
      ∧ |EndPoint.Z - StartPoint.Z| < FVector.Dist realMath StartPoint EndPoint + MIN_SLACK
      ∧ 1 < TargetRatio
      ∧ CreateCatenaryFixed realMath MIN_SLACK StartPoint EndPoint Slack Steps
        = (FindParameterFixed realMath TargetRatio).bind fun Z =>
            CatenaryPoints realMath StartPoint EndPoint
              (FVector.Dist realMath ⟨EndPoint.X, EndPoint.Y, StartPoint.Z⟩ StartPoint)
              WireLength (EndPoint.Z - StartPoint.Z) Z Steps) := by
  have hv := abs_HeightDiff_le_Dist StartPoint EndPoint
  have key : ∀ slack : ℝ, MIN_SLACK ≤ slack →
      ¬ (FVector.Dist realMath StartPoint EndPoint + slack) ^ 2
          - (EndPoint.Z - StartPoint.Z) ^ 2 < 0 := by
    intro slack hs
    have h1 : |EndPoint.Z - StartPoint.Z| < FVector.Dist realMath StartPoint EndPoint + slack := by
      linarith
    have h2 := sq_lt_sq' (abs_lt.mp h1).1 (abs_lt.mp h1).2
    linarith
  constructor
  · have hs := le_max_left MIN_SLACK (Slack + FRandRange 0 SlackVariation)
    refine ⟨_, _, rfl, rfl, by linarith, by linarith,
      TargetRatio_gt_one StartPoint EndPoint hH (by linarith), ?_⟩
    have hsqrt : fsqrt realMath ((FVector.Dist realMath StartPoint EndPoint
          + max MIN_SLACK (Slack + FRandRange 0 SlackVariation)) ^ 2
          - (EndPoint.Z - StartPoint.Z) ^ 2)
        = some (Real.sqrt ((FVector.Dist realMath StartPoint EndPoint
          + max MIN_SLACK (Slack + FRandRange 0 SlackVariation)) ^ 2
          - (EndPoint.Z - StartPoint.Z) ^ 2)) := by
      simp only [fsqrt, if_neg (key _ hs)]
      rfl
    simp only [CreateCatenaryNewton, hsqrt, fdiv_of_ne _ hH.ne', Option.bind_eq_bind,
      Option.some_bind]
  · have hs := le_max_left MIN_SLACK Slack
    refine ⟨_, _, rfl, rfl, by linarith, by linarith,
      TargetRatio_gt_one StartPoint EndPoint hH (by linarith), ?_⟩
    have hsqrt : fsqrt realMath ((FVector.Dist realMath StartPoint EndPoint
          + max MIN_SLACK Slack) ^ 2 - (EndPoint.Z - StartPoint.Z) ^ 2)
        = some (Real.sqrt ((FVector.Dist realMath StartPoint EndPoint
          + max MIN_SLACK Slack) ^ 2 - (EndPoint.Z - StartPoint.Z) ^ 2)) := by
      simp only [fsqrt, if_neg (key _ hs)]
      rfl
    simp only [CreateCatenaryFixed, hsqrt, fdiv_of_ne _ hH.ne', Option.bind_eq_bind,
      Option.some_bind]

end PlaneClaims

/-! ## The solvers: range of the results -/

section SolverRange

open Real Set

/-- Witness of C16: a level span of 1000 units with a negative slack of -50, a slack
variation of 2 and `MIN_SLACK = 1`. -/
theorem CreateCatenary_precondition_witness :
    (0 : ℝ) < FVector.Dist realMath ⟨1000, 0, 0⟩ ⟨0, 0, 0⟩
    ∧ ∃ WireLength TargetRatio : ℝ,
      WireLength = FVector.Dist realMath ⟨0, 0, 0⟩ ⟨1000, 0, 0⟩ + max 1 (-50)
      ∧ FVector.Dist realMath ⟨0, 0, 0⟩ ⟨1000, 0, 0⟩ + 1 ≤ WireLength
      ∧ 1 < TargetRatio
      ∧ CreateCatenaryFixed realMath 1 ⟨0, 0, 0⟩ ⟨1000, 0, 0⟩ (-50) 10
        = (FindParameterFixed realMath TargetRatio).bind fun Z =>
            CatenaryPoints realMath ⟨0, 0, 0⟩ ⟨1000, 0, 0⟩
              (FVector.Dist realMath ⟨1000, 0, 0⟩ ⟨0, 0, 0⟩) WireLength (0 - 0) Z 10 := by
  have hh : (0 : ℝ) < FVector.Dist realMath ⟨1000, 0, 0⟩ ⟨0, 0, 0⟩ := by
    rw [Dist_along_X]; norm_num
  obtain ⟨-, ⟨L, R, hL, -, h1, -, h2, h3⟩⟩ := CreateCatenary_precondition 1 (fun _ b => b)
    ⟨0, 0, 0⟩ ⟨1000, 0, 0⟩ (-50) 2 10 hh one_pos
  exact ⟨hh, L, R, hL, h1, h2, h3⟩

/-- C19: for every target ratio `FindParameterFixed` returns a `Z ≥ 1`, its initial guess;
for a target ratio `R` with `1 < R ≤ sinh 1 - 0.05` the returned `Z` has
`sinh Z / Z - R ≥ 0.05`, and every positive root of `sinh z / z = R` lies below 1, so
below the returned `Z`. -/
theorem FindParameterFixed_ge_initial (R : ℝ) :
    (∃ Z, FindParameterFixed realMath R = some Z ∧ 1 ≤ Z)
    ∧ (1 < R → R ≤ Real.sinh 1 - 0.05 →
        ∃ Z, FindParameterFixed realMath R = some Z
          ∧ 0.05 ≤ Real.sinh Z / Z - R
          ∧ ∀ z₀ : ℝ, 0 < z₀ → Real.sinh z₀ / z₀ = R → z₀ < 1 ∧ z₀ < Z) := by
  constructor
  · obtain ⟨Z, hZ, h1, -⟩ := FindParameterFixed_ge_one R
    exact ⟨Z, hZ, h1⟩
  · intro _ hR
    refine ⟨1, FindParameterFixed_stuck hR, by rw [div_one]; linarith, ?_⟩
    intro z₀ hz₀ hroot
    have hlt : sinhRatio z₀ < sinhRatio 1 := by
      rw [sinhRatio_one]
      show Real.sinh z₀ / z₀ < Real.sinh 1
      rw [hroot]
      linarith
    have := (sinhRatio_strictMonoOn.lt_iff_lt (mem_Ioi.mpr hz₀)
      (mem_Ioi.mpr one_pos)).mp hlt
    exact ⟨this, this⟩

/-- Witness of C19: the target ratio `1.1` of a level span of 1000 units with slack 100. -/
theorem FindParameterFixed_ge_initial_witness :
    (1 : ℝ) < 1.1 ∧ (1.1 : ℝ) ≤ Real.sinh 1 - 0.05
    ∧ ∃ Z, FindParameterFixed realMath 1.1 = some Z
      ∧ 0.05 ≤ Real.sinh Z / Z - 1.1
      ∧ ∀ z₀ : ℝ, 0 < z₀ → Real.sinh z₀ / z₀ = 1.1 → z₀ < 1 ∧ z₀ < Z := by
  have h1 : (1 : ℝ) < 1.1 := by norm_num
  have h2 : (1.1 : ℝ) ≤ Real.sinh 1 - 0.05 := by
    obtain ⟨h, -, -, -⟩ := sinh_cosh_one_bounds
    linarith
  exact ⟨h1, h2, (FindParameterFixed_ge_initial 1.1).2 h1 h2⟩

/-- The ratio `sinh z / z` takes every value above one at a positive argument. -/
theorem exists_sinhRatio_eq {R : ℝ} (hR : 1 < R) : ∃ z₀, 0 < z₀ ∧ sinhRatio z₀ = R := by
  have hmid : 1 < (1 + R) / 2 := by linarith
  have ha : 0 < Real.log ((1 + R) / 2) := Real.log_pos hmid
  have hexp : Real.exp (Real.log ((1 + R) / 2)) = (1 + R) / 2 := Real.exp_log (by linarith)
  have hga : sinhRatio (Real.log ((1 + R) / 2)) < R := by
    have h1 := sinh_lt_mul_cosh ha
    have h2 : sinhRatio (Real.log ((1 + R) / 2)) < Real.cosh (Real.log ((1 + R) / 2)) := by
      simp only [sinhRatio]
      rw [div_lt_iff₀ ha]
      linarith
    have h3 : Real.cosh (Real.log ((1 + R) / 2)) ≤ Real.exp (Real.log ((1 + R) / 2)) := by
      rw [Real.cosh_eq]
      have : Real.exp (-Real.log ((1 + R) / 2)) ≤ Real.exp (Real.log ((1 + R) / 2)) :=
        Real.exp_le_exp.mpr (by linarith)
      linarith
    rw [hexp] at h3
    linarith
  have hd := sinhRatioDeriv_pos (one_pos : (0 : ℝ) < 1)
  have hb0 : 0 < 1 + R / sinhRatioDeriv 1 := by positivity
  have hgb : R < sinhRatio (1 + R / sinhRatioDeriv 1) := by
    have ht := sinhRatio_tangent_le (one_pos : (0 : ℝ) < 1) hb0
    have e : sinhRatioDeriv 1 * (1 + R / sinhRatioDeriv 1 - 1) = R := by
      field_simp
    rw [e, sinhRatio_one] at ht
    have := Real.sinh_pos_iff.mpr (one_pos : (0 : ℝ) < 1)
    linarith
  have hab : Real.log ((1 + R) / 2) ≤ 1 + R / sinhRatioDeriv 1 := by
    by_contra hcon
    have := sinhRatio_strictMonoOn (mem_Ioi.mpr hb0) (mem_Ioi.mpr ha) (not_le.mp hcon)
    linarith
  have hcont : ContinuousOn sinhRatio
      (Icc (Real.log ((1 + R) / 2)) (1 + R / sinhRatioDeriv 1)) := by
    intro z hz
    have hz0 : 0 < z := lt_of_lt_of_le ha hz.1
    exact (hasDerivAt_sinhRatio hz0.ne').continuousAt.continuousWithinAt
  obtain ⟨z, hz, hzR⟩ := intermediate_value_Icc hab hcont ⟨hga.le, hgb.le⟩
  exact ⟨z, lt_of_lt_of_le ha hz.1, hzR⟩

/-- After a Newton update from a positive point the ratio is at or above the target. -/
theorem le_sinhRatio_newtonStep {R z : ℝ} (hR : 1 < R) (hz : 0 < z) :
    R ≤ sinhRatio (newtonStep R z) := by
  have hd := sinhRatioDeriv_pos hz
  have ht := sinhRatio_tangent_le hz (newtonStep_pos hR hz)
  have e : sinhRatioDeriv z * (newtonStep R z - z) = -(sinhRatio z - R) := by
    simp only [newtonStep]
    field_simp
    ring
  rw [e] at ht
  linarith

theorem iterate_newtonStep_pos {R : ℝ} (hR : 1 < R) (k : Nat) :
    0 < (newtonStep R)^[k] 1 := by
  induction k with
  | zero => exact one_pos
  | succ k ih =>
    rw [Function.iterate_succ_apply']
    exact newtonStep_pos hR ih

/-- The value that the loop of `FindParameterNewton` returns is one of the Newton
iterates of its entry value, the first or a later one when the loop runs at all. -/
theorem NewtonLoop_eq_iterate {R : ℝ} (hR : 1 < R) (n : Nat) :
    ∀ z : ℝ, 0 < z →
      ∃ j, j ≤ n ∧ (1 ≤ n → 1 ≤ j)
        ∧ NewtonLoop realMath R n z = some ((newtonStep R)^[j] z) := by
  induction n with
  | zero => intro z _; exact ⟨0, le_refl _, fun h => absurd h (by norm_num), rfl⟩
  | succ n ih =>
    intro z hz
    rw [NewtonLoop_succ R n hz]
    split_ifs
    · exact ⟨1, by omega, fun _ => le_refl _, rfl⟩
    · obtain ⟨j, hj, -, hres⟩ := ih _ (newtonStep_pos hR hz)
      refine ⟨j + 1, by omega, fun _ => by omega, ?_⟩
      rw [hres, Function.iterate_succ_apply]

/-- C20: for every target ratio `R > 1` the equation `sinh z / z = R` has exactly one
positive solution `z₀`; every Newton iterate after the first update has
`sinh Z / Z ≥ R` and `Z ≥ z₀`, the iterates from the first update on do not increase, and
`FindParameterNewton` returns one of these iterates (the `k`-th, `1 ≤ k ≤ 8`), so the
returned `Z` has `sinh Z / Z ≥ R` and `Z ≥ z₀`. -/
theorem FindParameterNewton_no_undershoot (R : ℝ) (hR : 1 < R) :
    ∃ z₀ : ℝ,
      (0 < z₀ ∧ Real.sinh z₀ / z₀ = R ∧ ∀ z : ℝ, 0 < z → Real.sinh z / z = R → z = z₀)
      ∧ (∀ k : Nat, 1 ≤ k →
          R ≤ Real.sinh ((newtonStep R)^[k] 1) / (newtonStep R)^[k] 1
          ∧ z₀ ≤ (newtonStep R)^[k] 1
          ∧ (newtonStep R)^[k + 1] 1 ≤ (newtonStep R)^[k] 1)
      ∧ ∃ (k : Nat) (Z : ℝ), 1 ≤ k ∧ k ≤ 8 ∧ Z = (newtonStep R)^[k] 1
          ∧ FindParameterNewton realMath R = some Z
          ∧ R ≤ Real.sinh Z / Z ∧ z₀ ≤ Z := by
  obtain ⟨z₀, hz₀, hroot⟩ := exists_sinhRatio_eq hR
  have hiter : ∀ k : Nat, 1 ≤ k →
      R ≤ sinhRatio ((newtonStep R)^[k] 1) ∧ z₀ ≤ (newtonStep R)^[k] 1 := by
    intro k hk
    obtain ⟨j, rfl⟩ : ∃ j, k = j + 1 := ⟨k - 1, by omega⟩
    rw [Function.iterate_succ_apply']
    exact ⟨le_sinhRatio_newtonStep hR (iterate_newtonStep_pos hR j),
      le_newtonStep (iterate_newtonStep_pos hR j) hz₀ hroot⟩
  refine ⟨z₀, ⟨hz₀, hroot, ?_⟩, ?_, ?_⟩
  · intro z hz hzR
    have h : sinhRatio z = sinhRatio z₀ := by rw [hroot]; exact hzR
    exact sinhRatio_strictMonoOn.injOn (mem_Ioi.mpr hz) (mem_Ioi.mpr hz₀) h
  · intro k hk
    obtain ⟨h1, h2⟩ := hiter k hk
    refine ⟨h1, h2, ?_⟩
    rw [Function.iterate_succ_apply']
    exact newtonStep_le (iterate_newtonStep_pos hR k) h1
  · obtain ⟨k, hk8, hk1, hres⟩ := NewtonLoop_eq_iterate hR 8 1 one_pos
    obtain ⟨h1, h2⟩ := hiter k (hk1 (by norm_num))
    exact ⟨k, _, hk1 (by norm_num), hk8, rfl, hres, h1, h2⟩

/-- Witness of C20: the target ratio `2`. -/
theorem FindParameterNewton_no_undershoot_witness :
    (1 : ℝ) < 2
    ∧ ∃ z₀ : ℝ,
      (0 < z₀ ∧ Real.sinh z₀ / z₀ = 2 ∧ ∀ z : ℝ, 0 < z → Real.sinh z / z = 2 → z = z₀)
      ∧ (∀ k : Nat, 1 ≤ k →
          2 ≤ Real.sinh ((newtonStep 2)^[k] 1) / (newtonStep 2)^[k] 1
          ∧ z₀ ≤ (newtonStep 2)^[k] 1
          ∧ (newtonStep 2)^[k + 1] 1 ≤ (newtonStep 2)^[k] 1)
      ∧ ∃ (k : Nat) (Z : ℝ), 1 ≤ k ∧ k ≤ 8 ∧ Z = (newtonStep 2)^[k] 1
          ∧ FindParameterNewton realMath 2 = some Z
          ∧ 2 ≤ Real.sinh Z / Z ∧ z₀ ≤ Z :=
  ⟨by norm_num, FindParameterNewton_no_undershoot 2 (by norm_num)⟩

end SolverRange

end EasyPowerLines
